import Mathlib

/-!
# ICS 3.5/3.6 servo driver: protocol layer (`IcsBaseClass`)

A shallow embedding of `IcsClass_V210/src/IcsBaseClass.cpp`.

* `unsigned char` and `unsigned int` values are natural numbers; a store into an
  `unsigned char` is written `% 256`, the conversion of an `unsigned int` to
  `int` is `toInt` (two's complement, 32 bit).
* `synchronize` is pure virtual in `IcsBaseClass`.  It is embedded as a
  recording line: the device behind the line answers every call with the flag
  and the contents it leaves in the receive buffer, and every call is appended
  to a log, so that "no I/O" is "the log did not change".
* Whether plain `char` is signed is implementation defined; `idMax` casts to
  `char`, so the signedness is a parameter `sc` of every operation.
* `delay(520)` in `getID` and `setID` only passes time and is not part of the
  embedding.
* In the fixed-point angle conversions `int` is 32 bit and wraps (`wrap32`),
  `long` is 64 bit, wide enough for every product that occurs, and `/` is the
  truncating `Int.tdiv`.  The `float` conversions `degPos`, `posDeg` are not
  embedded.
-/

namespace IcsBaseClass

/-! ## Constants of `IcsBaseClass.h` -/

/-- Maximum value of servo ID. -/
def MAX_ID : Int := 31
/-- Minimum value of servo ID. -/
def MIN_ID : Int := 0
/-- Servo position maximum value. -/
def MAX_POS : Int := 11500
/-- Servo position minimum value. -/
def MIN_POS : Int := 3500
/-- Value when ICS communication etc. fails. -/
def ICS_FALSE : Int := -1
/-- Maximum value of parameter. -/
def MAX_127 : Int := 127
/-- Maximum value of parameter (current value). -/
def MAX_63 : Int := 63
/-- Minimum value of parameter. -/
def MIN_1 : Int := 1
/-- Marker of an angle (x100) that is not within the range. -/
def ANGLE_I_FALSE : Int := 0x7FFF
/-- Maximum value of angle (x100). -/
def MAX_100DEG : Int := 18000
/-- Minimum value of angle (x100). -/
def MIN_100DEG : Int := -18000

/-! ## Machine integers -/

/-- Conversion of an `unsigned int` to `int` (32 bit, two's complement). -/
def toInt (n : Nat) : Int :=
  if n % 2 ^ 32 < 2 ^ 31 then ((n % 2 ^ 32 : Nat) : Int) else ((n % 2 ^ 32 : Nat) : Int) - 2 ^ 32

/-- A value stored into an `int` (32 bit, two's complement, wrapping). -/
def wrap32 (z : Int) : Int := (z + 2 ^ 31) % 2 ^ 32 - 2 ^ 31

/-- The cast `(char)id` of an `unsigned char`, promoted to `int`; `sc` says
whether plain `char` is signed on the platform. -/
def charCast (sc : Bool) (id : Nat) : Int :=
  if sc && decide (128 ≤ id % 256) then ((id % 256 : Nat) : Int) - 256 else ((id % 256 : Nat) : Int)

/-! ## The recording line behind `synchronize` -/

/-- One call of `synchronize`: the transmit buffer, `txLen` and `rxLen`. -/
structure SyncCall where
  txBuf : List Nat
  txLen : Nat
  rxLen : Nat
deriving DecidableEq, Repr

/-- The line of an `IcsBaseClass` object: `device` is the behaviour behind the
virtual `synchronize` (from the calls made so far and the present call to the
returned flag and the contents of the receive buffer after the call), `calls`
is the log of the calls made. -/
structure Line where
  device : List SyncCall → SyncCall → Bool × List Nat
  calls : List SyncCall

/-- The virtual `synchronize(txBuf, txLen, rxBuf, rxLen)`: answer of the
device, and the line with the call recorded. -/
def synchronize (l : Line) (txBuf : List Nat) (txLen rxLen : Nat) : (Bool × List Nat) × Line :=
  (l.device l.calls ⟨txBuf, txLen, rxLen⟩, { l with calls := l.calls ++ [⟨txBuf, txLen, rxLen⟩] })

/-- Read of `rxCmd[i]`, an `unsigned char`. -/
def rxAt (rxCmd : List Nat) (i : Nat) : Nat := rxCmd.getD i 0 % 256

/-! ## `IcsBaseClass.cpp` -/

/-- Check if the servo ID is within range; `0xFF` when out of range. -/
def idMax (sc : Bool) (id : Nat) : Nat :=
  let id1 := if charCast sc id < MIN_ID then 0xFF else id
  let id2 := if (id1 : Int) > MAX_ID then 0xFF else id1
  id2

/-- Range check of `val` against `[minPos, maxPos]`. -/
def maxMin (maxPos minPos val : Int) : Bool :=
  if val > maxPos then false
  else if val < minPos then false
  else true

/-- Change the angle of the servo motor. -/
def setPos (sc : Bool) (l : Line) (id pos : Nat) : Int × Line :=
  if id ≠ idMax sc id ∨ !maxMin MAX_POS MIN_POS (toInt pos) then (ICS_FALSE, l)
  else
    let txCmd := [(0x80 + id) % 256, ((pos >>> 7) &&& 0x007F) % 256, (pos &&& 0x007F) % 256]
    let r := synchronize l txCmd 3 3
    if r.1.1 = false then (ICS_FALSE, r.2)
    else
      let rePos := ((rxAt r.1.2 1 <<< 7) &&& 0x3F80) + (rxAt r.1.2 2 &&& 0x007F)
      (toInt rePos, r.2)

/-- Sets the servo motor to a free (weak) state. -/
def setFree (sc : Bool) (l : Line) (id : Nat) : Int × Line :=
  if id ≠ idMax sc id then (ICS_FALSE, l)
  else
    let txCmd := [(0x80 + id) % 256, 0, 0]
    let r := synchronize l txCmd 3 3
    if r.1.1 = false then (ICS_FALSE, r.2)
    else
      let rePos := ((rxAt r.1.2 1 <<< 7) &&& 0x3F80) + (rxAt r.1.2 2 &&& 0x007F)
      (toInt rePos, r.2)

/-- Common body of `setStrc`, `setSpd`, `setCur`, `setTmp`, which differ in the
upper bound `maxVal` and the sub command `subcmd` only. -/
def setParam (maxVal : Int) (subcmd : Nat) (sc : Bool) (l : Line) (id val : Nat) : Int × Line :=
  if id ≠ idMax sc id ∨ !maxMin maxVal MIN_1 (toInt val) then (ICS_FALSE, l)
  else
    let txCmd := [(0xC0 + id) % 256, subcmd, val % 256]
    let r := synchronize l txCmd 3 3
    if r.1.1 = false then (ICS_FALSE, r.2)
    else
      let reData := rxAt r.1.2 2
      (toInt reData, r.2)

/-- Write the servo motor stretch value. -/
def setStrc (sc : Bool) (l : Line) (id strc : Nat) : Int × Line := setParam MAX_127 0x01 sc l id strc
/-- Change the speed of the servo motor. -/
def setSpd (sc : Bool) (l : Line) (id spd : Nat) : Int × Line := setParam MAX_127 0x02 sc l id spd
/-- Change the current limit value of the servo motor. -/
def setCur (sc : Bool) (l : Line) (id curlim : Nat) : Int × Line := setParam MAX_63 0x03 sc l id curlim
/-- Change the temperature limit value of the servo motor. -/
def setTmp (sc : Bool) (l : Line) (id tmplim : Nat) : Int × Line := setParam MAX_127 0x04 sc l id tmplim

/-- Common body of `getStrc`, `getSpd`, `getCur`, `getTmp`, which differ in the
sub command only. -/
def getParam (subcmd : Nat) (sc : Bool) (l : Line) (id : Nat) : Int × Line :=
  if id ≠ idMax sc id then (ICS_FALSE, l)
  else
    let txCmd := [(0xA0 + id) % 256, subcmd]
    let r := synchronize l txCmd 2 3
    if r.1.1 = false then (ICS_FALSE, r.2)
    else
      let reData := rxAt r.1.2 2
      (toInt reData, r.2)

/-- Reads the servo motor stretch value. -/
def getStrc (sc : Bool) (l : Line) (id : Nat) : Int × Line := getParam 0x01 sc l id
/-- Read the speed of the servo motor. -/
def getSpd (sc : Bool) (l : Line) (id : Nat) : Int × Line := getParam 0x02 sc l id
/-- Reads the current value of the servo motor. -/
def getCur (sc : Bool) (l : Line) (id : Nat) : Int × Line := getParam 0x03 sc l id
/-- Read the current temperature value of the servo motor. -/
def getTmp (sc : Bool) (l : Line) (id : Nat) : Int × Line := getParam 0x04 sc l id

/-- Read the current position data of the servo motor. -/
def getPos (sc : Bool) (l : Line) (id : Nat) : Int × Line :=
  if id ≠ idMax sc id then (ICS_FALSE, l)
  else
    let txCmd := [(0xA0 + id) % 256, 0x05]
    let r := synchronize l txCmd 2 4
    if r.1.1 = false then (ICS_FALSE, r.2)
    else
      let reData := ((rxAt r.1.2 2 <<< 7) &&& 0x3F80) + (rxAt r.1.2 3 &&& 0x007F)
      (toInt reData, r.2)

/-- Get the ID of the ICS device. -/
def getID (l : Line) : Int × Line :=
  let txCmd := [0xFF, 0, 0, 0]
  let r := synchronize l txCmd 4 1
  if r.1.1 = false then (ICS_FALSE, r.2)
  else
    let id := 0x1F &&& rxAt r.1.2 0
    ((id : Int), r.2)

set_option linter.unusedVariables false in
/-- Write the ID of the ICS device.  The source masks the reply into `reID` and
returns `id`. -/
def setID (l : Line) (id : Nat) : Int × Line :=
  let txCmd := [(0xE0 + id) % 256, 1, 1, 1]
  let r := synchronize l txCmd 4 1
  if r.1.1 = false then (ICS_FALSE, r.2)
  else
    let reID := 0x1F &&& rxAt r.1.2 0
    ((id : Int), r.2)

/-- Convert angle data x100 (`int`) to position data; -1 when out of range.
`long` holds the product exactly (64 bit); `/` truncates toward zero. -/
def degPos100 (deg : Int) : Int :=
  if deg > MAX_100DEG then -1
  else if deg < MIN_100DEG then -1
  else
    let a := Int.tdiv (deg * 2963) 10000
    let pos := wrap32 (a + 7500)
    pos

/-- Convert position data to angle data x100 (`int`).  `pos - 7500` is an `int`
subtraction, `long` holds the product exactly (64 bit), `/` truncates toward
zero, and the quotient is stored into the `int` `deg`. -/
def posDeg100 (pos : Int) : Int :=
  let a := wrap32 (pos - 7500)
  let deg := wrap32 (Int.tdiv (a * 1000) 296)
  if deg > MAX_100DEG then ANGLE_I_FALSE
  else if deg < MIN_100DEG then -ANGLE_I_FALSE
  else deg

/-! ## Vocabulary of the statements -/

/-- A frame of `n` bytes. -/
def IsFrame (n : Nat) (resp : List Nat) : Prop := resp.length = n ∧ ∀ b ∈ resp, b < 256

instance (n : Nat) (resp : List Nat) : Decidable (IsFrame n resp) := by
  unfold IsFrame; infer_instance

/-- A successful exchange: the device answers the call `c` on the line `l` with
the flag `true` and leaves `resp` in the receive buffer. -/
def Answers (l : Line) (c : SyncCall) (resp : List Nat) : Prop := l.device l.calls c = (true, resp)

/-- The position decoded from the bytes `hi` and `lo` of a response. -/
def decodePos (hi lo : Nat) : Nat := ((hi <<< 7) &&& 0x3F80) + (lo &&& 0x7F)

/-- A line whose device answers every call successfully with `resp`. -/
def replyLine (resp : List Nat) : Line := ⟨fun _ _ => (true, resp), []⟩

/-- A line whose device never answers. -/
def deadLine : Line := ⟨fun _ _ => (false, []), []⟩

/-- The result of an operation from the answer `a` of the device, where
`decode` is the decoding rule of the operation. -/
def outcome (a : Bool × List Nat) (decode : List Nat → Nat) : Int :=
  if a.1 = false then ICS_FALSE else toInt (decode a.2)

/-- The outcome `r` of an operation started on the line `l` is one exchange
with the request `c`, decoded by `decode`: exactly the call `c` is added to the
log, and for every response frame of `c.rxLen` bytes of a successful exchange
the operation returns `decode` of that response. -/
def IsExchange (l : Line) (r : Int × Line) (c : SyncCall) (decode : List Nat → Nat) : Prop :=
  r.2.calls = l.calls ++ [c] ∧
    ∀ resp : List Nat, IsFrame c.rxLen resp → Answers l c resp → r.1 = (decode resp : Int)

/-- The failure marker of the outcome `r` of an operation started on the line
`l` is unambiguous, where `valid` is the input validation of the operation and
`bound` the largest value a successful exchange can yield: a rejected call
makes no call of `synchronize`, an accepted one makes exactly one call `c`; a
successful exchange yields a value in `[0, bound]`; and the operation returns
-1 if and only if the validation rejected the call or `synchronize` returned
false. -/
def MarkerUnambiguous (l : Line) (valid : Prop) (r : Int × Line) (bound : Int) : Prop :=
  ∃ c : SyncCall,
    (¬ valid → r.2.calls = l.calls) ∧
    (valid → r.2.calls = l.calls ++ [c]) ∧
    (valid → (l.device l.calls c).1 = true → 0 ≤ r.1 ∧ r.1 ≤ bound) ∧
    (r.1 = -1 ↔ ¬ valid ∨ (l.device l.calls c).1 = false)

/-- The line `l` after the call `c`. -/
def logged (l : Line) (c : SyncCall) : Line := { l with calls := l.calls ++ [c] }

/-- The call `setPos` makes. -/
def setPosCall (id pos : Nat) : SyncCall := ⟨[0x80 + id, (pos >>> 7) &&& 0x7F, pos &&& 0x7F], 3, 3⟩

/-- The call `setFree` makes. -/
def setFreeCall (id : Nat) : SyncCall := ⟨[0x80 + id, 0, 0], 3, 3⟩

/-- The call of a set-parameter operation. -/
def setParamCall (subcmd id v : Nat) : SyncCall := ⟨[0xC0 + id, subcmd, v], 3, 3⟩

/-- The call of a get-parameter operation. -/
def getParamCall (subcmd id : Nat) : SyncCall := ⟨[0xA0 + id, subcmd], 2, 3⟩

/-- The call `getPos` makes. -/
def getPosCall (id : Nat) : SyncCall := ⟨[0xA0 + id, 5], 2, 4⟩

/-- The call `getID` makes. -/
def getIDCall : SyncCall := ⟨[0xFF, 0, 0, 0], 4, 1⟩

end IcsBaseClass

/-! # The transaction layer (`IcsHardSerialClass`)

A shallow embedding of `IcsHardSerialClass::synchronize`
(`IcsClass_V210/src/IcsHardSerialClass.cpp`) over the port as explicit state.

* The port is a test double: `accept` is the count the serial `write` returns,
  `avail` holds the answers of the coming `ioctl(FIONREAD)` polls in order
  (zero once the list is used up) and `incoming` the bytes the coming `read`
  calls deliver.  Every behaviour of the device, as the program can observe it,
  is such a script.
* `delayMicroseconds(n)` advances the microsecond clock by `n`; `micros()`
  returns the clock as an `unsigned int`.
* Every call on the outside, and every store into the receive buffer, is
  appended to the `trace` of the port.  `flush` is `ioctl(TCFLSH, TCIOFLUSH)`.
* The two loops take fuel; `none` is "out of fuel".  The messages written to
  `std::cerr` and `std::cout` are not embedded.
-/

namespace IcsHardSerialClass

/-- What `synchronize` does on the outside, one constructor per primitive;
`store i b` is the assignment `rxBuf[i] = reChar`, with `b = none` when
`reChar` was never set. -/
inductive Effect where
  | digitalWrite (level : Bool)
  | write (txBuf : List Nat) (txLen : Nat)
  | delayMicroseconds (us : Nat)
  | micros
  | fionread
  | read
  | store (index : Nat) (byte : Option Nat)
  | flush
deriving DecidableEq, Repr

/-- The object and the port behind it: the members `baudrate_default` and
`timeout_default` (both `unsigned int`), the script of the port, the clock,
the level of the enable pin (`true` is `HIGH`) and the trace. -/
structure Port where
  baudrate_default : Nat
  timeout_default : Nat
  accept : Nat → Int
  avail : List Int
  incoming : List Nat
  clock : Nat
  pin : Bool
  trace : List Effect

/-- The call `digitalWrite(enpin_default, level)`. -/
def digitalWrite (p : Port) (level : Bool) : Port :=
  { p with pin := level, trace := p.trace ++ [Effect.digitalWrite level] }

/-- The call `write(fd_default, txBuf, txLen)` and the count it returns. -/
def write (p : Port) (txBuf : List Nat) (txLen : Nat) : Int × Port :=
  (p.accept txLen, { p with trace := p.trace ++ [Effect.write txBuf txLen] })

/-- The call `delayMicroseconds(us)`. -/
def delayMicroseconds (p : Port) (us : Nat) : Port :=
  { p with clock := p.clock + us, trace := p.trace ++ [Effect.delayMicroseconds us] }

/-- The call `micros()`. -/
def micros (p : Port) : Nat × Port :=
  (p.clock % 2 ^ 32, { p with trace := p.trace ++ [Effect.micros] })

/-- The call `ioctl(fd_default, FIONREAD, &fion)` and the new value of `fion`. -/
def fionread (p : Port) : Int × Port :=
  match p.avail with
  | [] => (0, { p with trace := p.trace ++ [Effect.fionread] })
  | a :: rest => (a, { p with avail := rest, trace := p.trace ++ [Effect.fionread] })

/-- The call `read(fd_default, &reChar, 1)` and the new value of `reChar`, which
is left as it was when the port delivers nothing. -/
def read (p : Port) (reChar : Option Nat) : Option Nat × Port :=
  match p.incoming with
  | [] => (reChar, { p with trace := p.trace ++ [Effect.read] })
  | b :: rest => (some b, { p with incoming := rest, trace := p.trace ++ [Effect.read] })

/-- The assignment `rxBuf[index] = reChar`. -/
def store (p : Port) (index : Nat) (reChar : Option Nat) : Port :=
  { p with trace := p.trace ++ [Effect.store index reChar] }

/-- The call `ioctl(fd_default, TCFLSH, TCIOFLUSH)`. -/
def flush (p : Port) : Port :=
  { p with trace := p.trace ++ [Effect.flush] }

/-- The loop `while (fion < 1)` that waits for the first byte; the difference
`currTime - readStartTime` is taken in `unsigned int`. -/
def awaitLoop (readStartTime : Nat) : Nat → Port → Int → Option (Port × Int)
  | 0, p, fion => if fion < 1 then none else some (p, fion)
  | fuel + 1, p, fion =>
    if fion < 1 then
      let p1 := delayMicroseconds p 50
      let r := fionread p1
      if r.1 ≠ 0 then some (r.2, r.1)
      else
        let t := micros r.2
        if (t.1 + 2 ^ 32 - readStartTime) % 2 ^ 32 > p.timeout_default then some (t.2, r.1)
        else awaitLoop readStartTime fuel t.2 r.1
    else some (p, fion)

/-- The variables of the loop `while (fion > 0)`. -/
structure Drain where
  port : Port
  fion : Int
  reChar : Option Nat
  bytesRead : Nat
  flag_incorrect_bytes_read : Bool

/-- The loop `while (fion > 0)` that reads byte by byte until there is no more
to read. -/
def drainLoop (rxLen : Nat) : Nat → Drain → Option Drain
  | 0, s => if s.fion > 0 then none else some s
  | fuel + 1, s =>
    if s.fion > 0 then
      let c := read s.port s.reChar
      let p1 := store c.2 s.bytesRead c.1
      let bytesRead := s.bytesRead + 1
      let flag := if bytesRead > rxLen then true else s.flag_incorrect_bytes_read
      let r := fionread p1
      drainLoop rxLen fuel ⟨r.2, r.1, c.1, bytesRead, flag⟩
    else some s

/-- The function `synchronize(txBuf, txLen, rxBuf, rxLen)`: the returned flag
and the port after the call. -/
def synchronize (fuel : Nat) (p : Port) (txBuf : List Nat) (txLen rxLen : Nat) :
    Option (Bool × Port) :=
  let p1 := digitalWrite p true
  let w := write p1 txBuf txLen
  if w.1 ≠ (txLen : Int) then some (false, w.2)
  else
    let p2 := if p.baudrate_default = 115200 then delayMicroseconds w.2 180
      else delayMicroseconds w.2 20
    let p3 := digitalWrite p2 false
    let p4 := if p.baudrate_default = 115200 then delayMicroseconds p3 100
      else delayMicroseconds p3 50
    let t := micros p4
    let r := fionread t.2
    match awaitLoop t.1 fuel r.2 r.1 with
    | none => none
    | some a =>
      match drainLoop rxLen fuel ⟨a.1, a.2, none, 0, false⟩ with
      | none => none
      | some s =>
        let flag := if s.bytesRead ≠ rxLen then true else s.flag_incorrect_bytes_read
        let p5 := flush s.port
        some (true && !flag, p5)

/-- The number of `read` calls in a trace: the number of bytes drained. -/
def reads (t : List Effect) : Nat := t.count Effect.read

/-- The number of `ioctl(FIONREAD)` polls in a trace. -/
def polls (t : List Effect) : Nat := t.count Effect.fionread

/-- The stores into the receive buffer in a trace, in order. -/
def stores : List Effect → List (Nat × Option Nat)
  | [] => []
  | Effect.store i b :: t => (i, b) :: stores t
  | _ :: t => stores t

/-- A port at rest (pin `LOW`, clock `c`, empty trace) at 115200 baud with the
timeout `timeout`, whose `write` accepts every request in full and on which
the bytes `bs` have all arrived by the first poll: the polls answer
`bs.length`, `bs.length - 1`, ..., `1`, and zero from then on. -/
def portDelivering (timeout c : Nat) (bs : List Nat) : Port :=
  { baudrate_default := 115200, timeout_default := timeout,
    accept := fun n => (n : Int),
    avail := ((List.range bs.length).reverse.map fun i => ((i + 1 : Nat) : Int)),
    incoming := bs, clock := c, pin := false, trace := [] }

end IcsHardSerialClass

namespace IcsBaseClass

/-! ## Lemmas on the machine integers and the range checks -/

theorem charCast_eq_of_lt (sc : Bool) (id : Nat) (h : id < 128) : charCast sc id = id := by
  unfold charCast
  have h1 : id % 256 = id := Nat.mod_eq_of_lt (by omega)
  have h2 : ¬ (128 ≤ id) := by omega
  simp [h1, h2]

theorem idMax_of_le (sc : Bool) (id : Nat) (h : id ≤ 31) : idMax sc id = id := by
  have h0 : ¬ (charCast sc id < MIN_ID) := by
    rw [charCast_eq_of_lt sc id (by omega)]; unfold MIN_ID; omega
  have h1 : ¬ ((id : Int) > MAX_ID) := by unfold MAX_ID; omega
  simp only [idMax, h0, h1, if_false]

theorem idMax_of_gt (sc : Bool) (id : Nat) (h : 31 < id) : idMax sc id = 0xFF := by
  unfold idMax
  by_cases h0 : charCast sc id < MIN_ID
  · simp only [h0, if_true]; unfold MAX_ID; norm_num
  · have h1 : ((id : Int) > MAX_ID) := by unfold MAX_ID; omega
    simp only [h0, h1, if_false, if_true]

theorem toInt_of_lt (n : Nat) (h : n < 2 ^ 31) : toInt n = n := by
  unfold toInt
  have h1 : n % 2 ^ 32 = n := Nat.mod_eq_of_lt (by omega)
  rw [h1, if_pos h]

theorem toInt_neg_of_ge (n : Nat) (h : 2 ^ 31 ≤ n) (h2 : n < 2 ^ 32) : toInt n < 0 := by
  unfold toInt
  have h1 : n % 2 ^ 32 = n := Nat.mod_eq_of_lt h2
  rw [h1, if_neg (by omega)]
  omega

theorem maxMin_iff (hi lo v : Int) : maxMin hi lo v = true ↔ lo ≤ v ∧ v ≤ hi := by
  unfold maxMin
  split_ifs <;> simp <;> omega

/-- The range check on an `unsigned int` argument accepts exactly `[lo, hi]`. -/
theorem maxMin_toInt_iff (hi lo v : Nat) (hv : v < 2 ^ 32) (hhi : hi < 2 ^ 31) :
    maxMin hi lo (toInt v) = true ↔ lo ≤ v ∧ v ≤ hi := by
  rw [maxMin_iff]
  by_cases h : v < 2 ^ 31
  · rw [toInt_of_lt v h]; omega
  · have := toInt_neg_of_ge v (by omega) hv
    constructor
    · intro h1; omega
    · intro h1; omega

theorem and_7F_lt (x : Nat) : x &&& 0x7F < 128 := by
  have := @Nat.and_le_right x 0x7F
  omega

theorem decodePos_le (hi lo : Nat) : decodePos hi lo ≤ 16383 := by
  unfold decodePos
  have h1 := @Nat.and_le_right (hi <<< 7) 0x3F80
  have h2 := and_7F_lt lo
  omega

theorem rxAt_of_frame (n : Nat) (resp : List Nat) (h : IsFrame n resp) (i : Nat) :
    rxAt resp i = resp.getD i 0 := by
  unfold rxAt
  apply Nat.mod_eq_of_lt
  by_cases hi : i < resp.length
  · rw [List.getD_eq_getElem resp 0 hi]
    exact h.2 _ (List.getElem_mem hi)
  · rw [List.getD_eq_default resp 0 (by omega)]; decide

/-! ## What each operation does on accepted and on rejected arguments -/

theorem setPos_accept (sc : Bool) (l : Line) (id pos : Nat) (hid : id ≤ 31)
    (hlo : 3500 ≤ pos) (hhi : pos ≤ 11500) :
    setPos sc l id pos =
      (outcome (l.device l.calls (setPosCall id pos)) (fun rx => decodePos (rxAt rx 1) (rxAt rx 2)),
        logged l (setPosCall id pos)) := by
  have h1 : ¬ (id ≠ idMax sc id) := by rw [idMax_of_le sc id hid]; simp
  have h2 : maxMin MAX_POS MIN_POS (toInt pos) = true := by
    have := (maxMin_toInt_iff 11500 3500 pos (by omega) (by norm_num)).2 ⟨hlo, hhi⟩
    simpa [MAX_POS, MIN_POS] using this
  have e0 : (0x80 + id) % 256 = 0x80 + id := Nat.mod_eq_of_lt (by omega)
  have e1 : ((pos >>> 7) &&& 0x7F) % 256 = (pos >>> 7) &&& 0x7F :=
    Nat.mod_eq_of_lt (by have := and_7F_lt (pos >>> 7); omega)
  have e2 : (pos &&& 0x7F) % 256 = pos &&& 0x7F :=
    Nat.mod_eq_of_lt (by have := and_7F_lt pos; omega)
  unfold setPos
  rw [if_neg (by simp [h1, h2])]
  simp only [synchronize, e0, e1, e2, outcome, logged, setPosCall, decodePos]
  split_ifs <;> rfl

theorem setPos_reject_id (sc : Bool) (l : Line) (id pos : Nat) (hid : id ≠ idMax sc id) :
    setPos sc l id pos = (ICS_FALSE, l) := by
  unfold setPos
  rw [if_pos (Or.inl hid)]

theorem setPos_reject_pos (sc : Bool) (l : Line) (id pos : Nat)
    (hpos : maxMin MAX_POS MIN_POS (toInt pos) = false) :
    setPos sc l id pos = (ICS_FALSE, l) := by
  unfold setPos
  rw [if_pos (Or.inr (by simp [hpos]))]

theorem setFree_accept (sc : Bool) (l : Line) (id : Nat) (hid : id ≤ 31) :
    setFree sc l id =
      (outcome (l.device l.calls (setFreeCall id)) (fun rx => decodePos (rxAt rx 1) (rxAt rx 2)),
        logged l (setFreeCall id)) := by
  have h1 : ¬ (id ≠ idMax sc id) := by rw [idMax_of_le sc id hid]; simp
  have e0 : (0x80 + id) % 256 = 0x80 + id := Nat.mod_eq_of_lt (by omega)
  unfold setFree
  rw [if_neg h1]
  simp only [synchronize, e0, outcome, logged, setFreeCall, decodePos]
  split_ifs <;> rfl

theorem setFree_reject (sc : Bool) (l : Line) (id : Nat) (hid : id ≠ idMax sc id) :
    setFree sc l id = (ICS_FALSE, l) := by
  unfold setFree
  rw [if_pos hid]

theorem setParam_accept (maxVal subcmd : Nat) (sc : Bool) (l : Line) (id v : Nat) (hid : id ≤ 31)
    (hmax : maxVal ≤ 127) (hlo : 1 ≤ v) (hhi : v ≤ maxVal) :
    setParam maxVal subcmd sc l id v =
      (outcome (l.device l.calls (setParamCall subcmd id v)) (fun rx => rxAt rx 2),
        logged l (setParamCall subcmd id v)) := by
  have h1 : ¬ (id ≠ idMax sc id) := by rw [idMax_of_le sc id hid]; simp
  have h2 : maxMin maxVal MIN_1 (toInt v) = true := by
    have := (maxMin_toInt_iff maxVal 1 v (by omega) (by omega)).2 ⟨hlo, hhi⟩
    simpa [MIN_1] using this
  have e0 : (0xC0 + id) % 256 = 0xC0 + id := Nat.mod_eq_of_lt (by omega)
  have e1 : v % 256 = v := Nat.mod_eq_of_lt (by omega)
  unfold setParam
  rw [if_neg (by simp [h1, h2])]
  simp only [synchronize, e0, e1, outcome, logged, setParamCall]
  split_ifs <;> rfl

theorem setParam_reject_id (maxVal : Int) (subcmd : Nat) (sc : Bool) (l : Line) (id v : Nat)
    (hid : id ≠ idMax sc id) : setParam maxVal subcmd sc l id v = (ICS_FALSE, l) := by
  unfold setParam
  rw [if_pos (Or.inl hid)]

theorem setParam_reject_val (maxVal : Int) (subcmd : Nat) (sc : Bool) (l : Line) (id v : Nat)
    (hv : maxMin maxVal MIN_1 (toInt v) = false) :
    setParam maxVal subcmd sc l id v = (ICS_FALSE, l) := by
  unfold setParam
  rw [if_pos (Or.inr (by simp [hv]))]

theorem getParam_accept (subcmd : Nat) (sc : Bool) (l : Line) (id : Nat) (hid : id ≤ 31) :
    getParam subcmd sc l id =
      (outcome (l.device l.calls (getParamCall subcmd id)) (fun rx => rxAt rx 2),
        logged l (getParamCall subcmd id)) := by
  have h1 : ¬ (id ≠ idMax sc id) := by rw [idMax_of_le sc id hid]; simp
  have e0 : (0xA0 + id) % 256 = 0xA0 + id := Nat.mod_eq_of_lt (by omega)
  unfold getParam
  rw [if_neg h1]
  simp only [synchronize, e0, outcome, logged, getParamCall]
  split_ifs <;> rfl

theorem getParam_reject (subcmd : Nat) (sc : Bool) (l : Line) (id : Nat) (hid : id ≠ idMax sc id) :
    getParam subcmd sc l id = (ICS_FALSE, l) := by
  unfold getParam
  rw [if_pos hid]

theorem getPos_accept (sc : Bool) (l : Line) (id : Nat) (hid : id ≤ 31) :
    getPos sc l id =
      (outcome (l.device l.calls (getPosCall id)) (fun rx => decodePos (rxAt rx 2) (rxAt rx 3)),
        logged l (getPosCall id)) := by
  have h1 : ¬ (id ≠ idMax sc id) := by rw [idMax_of_le sc id hid]; simp
  have e0 : (0xA0 + id) % 256 = 0xA0 + id := Nat.mod_eq_of_lt (by omega)
  unfold getPos
  rw [if_neg h1]
  simp only [synchronize, e0, outcome, logged, getPosCall, decodePos]
  split_ifs <;> rfl

theorem getPos_reject (sc : Bool) (l : Line) (id : Nat) (hid : id ≠ idMax sc id) :
    getPos sc l id = (ICS_FALSE, l) := by
  unfold getPos
  rw [if_pos hid]

theorem id_ne_idMax (sc : Bool) (id : Nat) (h1 : 32 ≤ id) (h2 : id ≤ 254) : id ≠ idMax sc id := by
  rw [idMax_of_gt sc id (by omega)]; omega

theorem outcome_ok (resp : List Nat) (decode : List Nat → Nat) (h : decode resp < 2 ^ 31) :
    outcome (true, resp) decode = decode resp := by
  unfold outcome
  rw [if_neg (by simp), toInt_of_lt _ h]

theorem idMax_sentinel (sc : Bool) : idMax sc 0xFF = 0xFF := by
  cases sc <;> decide

theorem logged_calls_ne (l : Line) (c : SyncCall) : (logged l c).calls ≠ l.calls := by
  intro h
  have := congrArg List.length h
  simp [logged] at this

theorem getD_lt_of_frame (n : Nat) (resp : List Nat) (h : IsFrame n resp) (i : Nat) :
    resp.getD i 0 < 256 := by
  rw [← rxAt_of_frame n resp h i]
  exact Nat.mod_lt _ (by decide)

theorem isExchange_of_eq (l : Line) (r : Int × Line) (c : SyncCall) (raw decode : List Nat → Nat)
    (hr : r = (outcome (l.device l.calls c) raw, logged l c))
    (hd : ∀ resp, IsFrame c.rxLen resp → raw resp = decode resp)
    (hb : ∀ resp, IsFrame c.rxLen resp → decode resp < 2 ^ 31) : IsExchange l r c decode := by
  subst hr
  refine ⟨rfl, ?_⟩
  intro resp hf ha
  have ha2 : l.device l.calls c = (true, resp) := ha
  show outcome (l.device l.calls c) raw = (decode resp : Int)
  rw [ha2, outcome_ok resp raw (by rw [hd resp hf]; exact hb resp hf), hd resp hf]

theorem setParam_exchange (maxVal subcmd : Nat) (sc : Bool) (l : Line) (id v : Nat) (hid : id ≤ 31)
    (hmax : maxVal ≤ 127) (hlo : 1 ≤ v) (hhi : v ≤ maxVal) :
    IsExchange l (setParam maxVal subcmd sc l id v) ⟨[0xC0 + id, subcmd, v], 3, 3⟩
      (fun resp => resp.getD 2 0) := by
  apply isExchange_of_eq l _ _ (fun rx => rxAt rx 2)
  · exact setParam_accept maxVal subcmd sc l id v hid hmax hlo hhi
  · intro resp hf; exact rxAt_of_frame 3 resp hf 2
  · intro resp hf
    have := getD_lt_of_frame 3 resp hf 2
    show resp.getD 2 0 < 2 ^ 31
    omega

theorem getParam_exchange (subcmd : Nat) (sc : Bool) (l : Line) (id : Nat) (hid : id ≤ 31) :
    IsExchange l (getParam subcmd sc l id) ⟨[0xA0 + id, subcmd], 2, 3⟩
      (fun resp => resp.getD 2 0) := by
  apply isExchange_of_eq l _ _ (fun rx => rxAt rx 2)
  · exact getParam_accept subcmd sc l id hid
  · intro resp hf; exact rxAt_of_frame 3 resp hf 2
  · intro resp hf
    have := getD_lt_of_frame 3 resp hf 2
    show resp.getD 2 0 < 2 ^ 31
    omega

theorem setParam_reach_iff (maxVal subcmd : Nat) (sc : Bool) (l : Line) (id v : Nat) (hid : id ≤ 31)
    (hmax : maxVal ≤ 127) (hv : v < 2 ^ 32) :
    ((setParam maxVal subcmd sc l id v).2.calls ≠ l.calls ↔ 1 ≤ v ∧ v ≤ maxVal) ∧
    (¬ (1 ≤ v ∧ v ≤ maxVal) → setParam maxVal subcmd sc l id v = (-1, l)) := by
  have hiff : maxMin maxVal MIN_1 (toInt v) = true ↔ 1 ≤ v ∧ v ≤ maxVal := by
    have := maxMin_toInt_iff maxVal 1 v hv (by omega)
    simpa [MIN_1] using this
  have hrej : ¬ (1 ≤ v ∧ v ≤ maxVal) → setParam maxVal subcmd sc l id v = (-1, l) := by
    intro h
    apply setParam_reject_val
    cases hm : maxMin maxVal MIN_1 (toInt v)
    · rfl
    · exact absurd (hiff.1 hm) h
  refine ⟨⟨?_, ?_⟩, hrej⟩
  · intro hne
    by_contra hout
    rw [hrej hout] at hne
    exact hne rfl
  · intro hin
    rw [setParam_accept maxVal subcmd sc l id v hid hmax hin.1 hin.2]
    exact logged_calls_ne l _

theorem getID_accept (l : Line) :
    getID l = (outcome (l.device l.calls getIDCall) (fun rx => 0x1F &&& rxAt rx 0),
      logged l getIDCall) := by
  unfold getID
  simp only [synchronize, outcome, logged, getIDCall]
  split_ifs
  · rfl
  · have hb : 0x1F &&& rxAt (l.device l.calls ⟨[0xFF, 0, 0, 0], 4, 1⟩).2 0 < 2 ^ 31 := by
      have := @Nat.and_le_left 0x1F (rxAt (l.device l.calls ⟨[0xFF, 0, 0, 0], 4, 1⟩).2 0)
      omega
    rw [toInt_of_lt _ hb]

theorem setPos_exchange (sc : Bool) (l : Line) (id pos : Nat) (hid : id ≤ 31)
    (hlo : 3500 ≤ pos) (hhi : pos ≤ 11500) :
    IsExchange l (setPos sc l id pos) ⟨[0x80 + id, (pos >>> 7) &&& 0x7F, pos &&& 0x7F], 3, 3⟩
      (fun resp => decodePos (resp.getD 1 0) (resp.getD 2 0)) := by
  apply isExchange_of_eq l _ _ (fun rx => decodePos (rxAt rx 1) (rxAt rx 2))
  · exact setPos_accept sc l id pos hid hlo hhi
  · intro resp hf; simp only [rxAt_of_frame 3 resp hf]
  · intro resp _
    have := decodePos_le (resp.getD 1 0) (resp.getD 2 0)
    show decodePos (resp.getD 1 0) (resp.getD 2 0) < 2 ^ 31
    omega

theorem setFree_exchange (sc : Bool) (l : Line) (id : Nat) (hid : id ≤ 31) :
    IsExchange l (setFree sc l id) ⟨[0x80 + id, 0, 0], 3, 3⟩
      (fun resp => decodePos (resp.getD 1 0) (resp.getD 2 0)) := by
  apply isExchange_of_eq l _ _ (fun rx => decodePos (rxAt rx 1) (rxAt rx 2))
  · exact setFree_accept sc l id hid
  · intro resp hf; simp only [rxAt_of_frame 3 resp hf]
  · intro resp _
    have := decodePos_le (resp.getD 1 0) (resp.getD 2 0)
    show decodePos (resp.getD 1 0) (resp.getD 2 0) < 2 ^ 31
    omega

/-! ## The claims -/

/-- C1: for every id in [0,31] and every pos in [3500,11500], `setPos(id, pos)`
invokes `synchronize` exactly once (the log of calls grows by exactly one
entry), with the 3-byte request `[0x80+id, (pos>>7)&0x7F, pos&0x7F]`, `txLen` 3
and an expected response length of 3. -/
theorem setPos_sends_one_request (sc : Bool) (l : Line) (id pos : Nat) (hid : id ≤ 31)
    (hlo : 3500 ≤ pos) (hhi : pos ≤ 11500) :
    (setPos sc l id pos).2.calls
      = l.calls ++ [⟨[0x80 + id, (pos >>> 7) &&& 0x7F, pos &&& 0x7F], 3, 3⟩] := by
  rw [setPos_accept sc l id pos hid hlo hhi]
  rfl

theorem setPos_sends_one_request_witness :
    (5 ≤ 31 ∧ 3500 ≤ 7500 ∧ 7500 ≤ 11500) ∧
      (setPos false deadLine 5 7500).2.calls = [⟨[0x85, 0x3A, 0x4C], 3, 3⟩] :=
  ⟨by decide, setPos_sends_one_request false deadLine 5 7500 (by decide) (by decide) (by decide)⟩

/-- C2: for every id in [0,31], `getPos(id)` sends the 2-byte request
`[0xA0+id, 5]` expecting a 4-byte response, and for every 4-byte response
`resp` of a successful exchange it returns
`((resp[2]<<7)&0x3F80) + (resp[3]&0x7F)`; the response `[0xA5,0x05,0x10,0x20]`
decodes to 2080. -/
theorem getPos_request_and_decode (sc : Bool) (l : Line) (id : Nat) (hid : id ≤ 31) :
    (getPos sc l id).2.calls = l.calls ++ [⟨[0xA0 + id, 5], 2, 4⟩] ∧
    (∀ resp : List Nat, IsFrame 4 resp → Answers l ⟨[0xA0 + id, 5], 2, 4⟩ resp →
      (getPos sc l id).1
        = ((((resp.getD 2 0 <<< 7) &&& 0x3F80) + (resp.getD 3 0 &&& 0x7F) : Nat) : Int)) ∧
    (Answers l ⟨[0xA0 + id, 5], 2, 4⟩ [0xA5, 0x05, 0x10, 0x20] → (getPos sc l id).1 = 2080) := by
  have key : ∀ resp : List Nat, IsFrame 4 resp → Answers l ⟨[0xA0 + id, 5], 2, 4⟩ resp →
      (getPos sc l id).1
        = ((((resp.getD 2 0 <<< 7) &&& 0x3F80) + (resp.getD 3 0 &&& 0x7F) : Nat) : Int) := by
    intro resp hf ha
    have ha2 : l.device l.calls (getPosCall id) = (true, resp) := ha
    rw [getPos_accept sc l id hid]
    simp only [ha2]
    rw [outcome_ok]
    · simp only [rxAt_of_frame 4 resp hf, decodePos]
    · have := decodePos_le (rxAt resp 2) (rxAt resp 3)
      show decodePos (rxAt resp 2) (rxAt resp 3) < 2 ^ 31
      omega
  refine ⟨?_, key, ?_⟩
  · rw [getPos_accept sc l id hid]; rfl
  · intro ha
    rw [key _ (by decide) ha]
    decide

theorem getPos_request_and_decode_witness :
    5 ≤ 31 ∧ (getPos false (replyLine [0xA5, 0x05, 0x10, 0x20]) 5).2.calls = [⟨[0xA5, 5], 2, 4⟩] ∧
      (getPos false (replyLine [0xA5, 0x05, 0x10, 0x20]) 5).1 = 2080 :=
  ⟨by decide,
    (getPos_request_and_decode false (replyLine [0xA5, 0x05, 0x10, 0x20]) 5 (by decide)).1,
    (getPos_request_and_decode false (replyLine [0xA5, 0x05, 0x10, 0x20]) 5 (by decide)).2.2 rfl⟩

/-- C3: for every id with 32 <= id <= 254 and every argument value, each of
`setPos`, `setFree`, `setStrc`, `setSpd`, `setCur`, `setTmp`, `getStrc`,
`getSpd`, `getCur`, `getTmp` and `getPos` returns the failure marker -1 and
leaves the line as it was: `synchronize` is never invoked (no call is
logged). -/
theorem out_of_range_id_rejected (sc : Bool) (l : Line) (id v : Nat) (h1 : 32 ≤ id) (h2 : id ≤ 254) :
    setPos sc l id v = (-1, l) ∧ setFree sc l id = (-1, l) ∧
    setStrc sc l id v = (-1, l) ∧ setSpd sc l id v = (-1, l) ∧
    setCur sc l id v = (-1, l) ∧ setTmp sc l id v = (-1, l) ∧
    getStrc sc l id = (-1, l) ∧ getSpd sc l id = (-1, l) ∧
    getCur sc l id = (-1, l) ∧ getTmp sc l id = (-1, l) ∧
    getPos sc l id = (-1, l) := by
  have h := id_ne_idMax sc id h1 h2
  exact ⟨setPos_reject_id sc l id v h, setFree_reject sc l id h,
    setParam_reject_id _ _ sc l id v h, setParam_reject_id _ _ sc l id v h,
    setParam_reject_id _ _ sc l id v h, setParam_reject_id _ _ sc l id v h,
    getParam_reject _ sc l id h, getParam_reject _ sc l id h,
    getParam_reject _ sc l id h, getParam_reject _ sc l id h,
    getPos_reject sc l id h⟩

theorem out_of_range_id_rejected_witness :
    (32 ≤ 32 ∧ 32 ≤ 254) ∧ (setPos true (replyLine [0, 0x3A, 0x4C]) 32 7500).1 = -1 ∧
      (setPos true (replyLine [0, 0x3A, 0x4C]) 32 7500).2.calls = [] :=
  ⟨by decide,
    congrArg Prod.fst (out_of_range_id_rejected true (replyLine [0, 0x3A, 0x4C]) 32 7500 (by decide) (by decide)).1,
    congrArg (fun r => r.2.calls)
      (out_of_range_id_rejected true (replyLine [0, 0x3A, 0x4C]) 32 7500 (by decide) (by decide)).1⟩

/-- C4 (the code at the failing input): the id `0xFF` equals what `idMax`
returns for it, so the guard `id != idMax(id)` lets it through; every one of
the eleven operations then invokes `synchronize`, with a command byte that has
wrapped around modulo 256, and `setPos` returns the position the device
reports instead of -1. -/
theorem sentinel_id_reaches_synchronize (sc : Bool) (l : Line) :
    idMax sc 0xFF = 0xFF ∧
    (setPos sc l 0xFF 7500).2.calls = l.calls ++ [⟨[0x7F, 0x3A, 0x4C], 3, 3⟩] ∧
    (setFree sc l 0xFF).2.calls = l.calls ++ [⟨[0x7F, 0, 0], 3, 3⟩] ∧
    (setStrc sc l 0xFF 64).2.calls = l.calls ++ [⟨[0xBF, 1, 64], 3, 3⟩] ∧
    (setSpd sc l 0xFF 64).2.calls = l.calls ++ [⟨[0xBF, 2, 64], 3, 3⟩] ∧
    (setCur sc l 0xFF 32).2.calls = l.calls ++ [⟨[0xBF, 3, 32], 3, 3⟩] ∧
    (setTmp sc l 0xFF 64).2.calls = l.calls ++ [⟨[0xBF, 4, 64], 3, 3⟩] ∧
    (getStrc sc l 0xFF).2.calls = l.calls ++ [⟨[0x9F, 1], 2, 3⟩] ∧
    (getSpd sc l 0xFF).2.calls = l.calls ++ [⟨[0x9F, 2], 2, 3⟩] ∧
    (getCur sc l 0xFF).2.calls = l.calls ++ [⟨[0x9F, 3], 2, 3⟩] ∧
    (getTmp sc l 0xFF).2.calls = l.calls ++ [⟨[0x9F, 4], 2, 3⟩] ∧
    (getPos sc l 0xFF).2.calls = l.calls ++ [⟨[0x9F, 5], 2, 4⟩] ∧
    (setPos sc (replyLine [0x7F, 0x3A, 0x4C]) 0xFF 7500).1 = 7500 := by
  have hs := idMax_sentinel sc
  have hp : maxMin MAX_POS MIN_POS (toInt 7500) = true := by decide
  have h127 : maxMin MAX_127 MIN_1 (toInt 64) = true := by decide
  have h63 : maxMin MAX_63 MIN_1 (toInt 32) = true := by decide
  refine ⟨hs, ?_, ?_, ?_, ?_, ?_, ?_, ?_, ?_, ?_, ?_, ?_, ?_⟩
  · simp only [setPos, hs, hp, synchronize]; split_ifs <;> first | rfl | (exfalso; simp_all)
  · simp only [setFree, hs, synchronize]; split_ifs <;> first | rfl | (exfalso; simp_all)
  · simp only [setStrc, setParam, hs, h127, synchronize]; split_ifs <;> first | rfl | (exfalso; simp_all)
  · simp only [setSpd, setParam, hs, h127, synchronize]; split_ifs <;> first | rfl | (exfalso; simp_all)
  · simp only [setCur, setParam, hs, h63, synchronize]; split_ifs <;> first | rfl | (exfalso; simp_all)
  · simp only [setTmp, setParam, hs, h127, synchronize]; split_ifs <;> first | rfl | (exfalso; simp_all)
  · simp only [getStrc, getParam, hs, synchronize]; split_ifs <;> first | rfl | (exfalso; simp_all)
  · simp only [getSpd, getParam, hs, synchronize]; split_ifs <;> first | rfl | (exfalso; simp_all)
  · simp only [getCur, getParam, hs, synchronize]; split_ifs <;> first | rfl | (exfalso; simp_all)
  · simp only [getTmp, getParam, hs, synchronize]; split_ifs <;> first | rfl | (exfalso; simp_all)
  · simp only [getPos, hs, synchronize]; split_ifs <;> first | rfl | (exfalso; simp_all)
  · cases sc <;> decide

/-- C5: for every id and every unsigned 32-bit pos outside [3500,11500]
(values of 2^31 and above included, which `maxMin` receives as a negative
`int`), `setPos(id, pos)` returns -1 and leaves the line as it was, without
invoking `synchronize`; the position check accepts pos if and only if
3500 <= pos <= 11500, and for id in [0,31] `setPos` invokes `synchronize` if
and only if 3500 <= pos <= 11500. -/
theorem setPos_position_check (sc : Bool) (l : Line) (id pos : Nat) (hpos : pos < 2 ^ 32) :
    ((pos < 3500 ∨ 11500 < pos) → setPos sc l id pos = (-1, l)) ∧
    (maxMin MAX_POS MIN_POS (toInt pos) = true ↔ 3500 ≤ pos ∧ pos ≤ 11500) ∧
    (id ≤ 31 → ((setPos sc l id pos).2.calls ≠ l.calls ↔ 3500 ≤ pos ∧ pos ≤ 11500)) := by
  have hiff : maxMin MAX_POS MIN_POS (toInt pos) = true ↔ 3500 ≤ pos ∧ pos ≤ 11500 := by
    have := maxMin_toInt_iff 11500 3500 pos hpos (by norm_num)
    simpa [MAX_POS, MIN_POS] using this
  have hrej : (pos < 3500 ∨ 11500 < pos) → setPos sc l id pos = (-1, l) := by
    intro h
    apply setPos_reject_pos
    cases hm : maxMin MAX_POS MIN_POS (toInt pos)
    · rfl
    · have := hiff.1 hm; omega
  refine ⟨hrej, hiff, ?_⟩
  intro hid
  constructor
  · intro hne
    by_contra hout
    have := hrej (by omega)
    rw [this] at hne
    exact hne rfl
  · intro hin
    rw [setPos_accept sc l id pos hid hin.1 hin.2]
    exact logged_calls_ne l _

theorem setPos_position_check_witness :
    4294967295 < 2 ^ 32 ∧ setPos false (replyLine [0, 0, 0]) 5 4294967295 = (-1, replyLine [0, 0, 0]) :=
  ⟨by decide,
    (setPos_position_check false (replyLine [0, 0, 0]) 5 4294967295 (by decide)).1 (Or.inr (by decide))⟩

/-- C6: for every id in [0,31] and every unsigned 32-bit value: `setStrc`,
`setSpd` and `setTmp` reach `synchronize` if and only if the value is in
[1,127], and `setCur` if and only if it is in [1,63]; for every value outside
the closed range of the operation, the operation returns -1 and leaves the line
as it was, without invoking `synchronize`. -/
theorem set_parameter_range_check (sc : Bool) (l : Line) (id v : Nat) (hid : id ≤ 31)
    (hv : v < 2 ^ 32) :
    ((setStrc sc l id v).2.calls ≠ l.calls ↔ 1 ≤ v ∧ v ≤ 127) ∧
    ((setSpd sc l id v).2.calls ≠ l.calls ↔ 1 ≤ v ∧ v ≤ 127) ∧
    ((setTmp sc l id v).2.calls ≠ l.calls ↔ 1 ≤ v ∧ v ≤ 127) ∧
    ((setCur sc l id v).2.calls ≠ l.calls ↔ 1 ≤ v ∧ v ≤ 63) ∧
    (¬ (1 ≤ v ∧ v ≤ 127) →
      setStrc sc l id v = (-1, l) ∧ setSpd sc l id v = (-1, l) ∧ setTmp sc l id v = (-1, l)) ∧
    (¬ (1 ≤ v ∧ v ≤ 63) → setCur sc l id v = (-1, l)) := by
  have h1 := setParam_reach_iff 127 1 sc l id v hid (by omega) hv
  have h2 := setParam_reach_iff 127 2 sc l id v hid (by omega) hv
  have h3 := setParam_reach_iff 63 3 sc l id v hid (by omega) hv
  have h4 := setParam_reach_iff 127 4 sc l id v hid (by omega) hv
  exact ⟨h1.1, h2.1, h4.1, h3.1, fun h => ⟨h1.2 h, h2.2 h, h4.2 h⟩, h3.2⟩

theorem set_parameter_range_check_witness :
    (5 ≤ 31 ∧ 64 < 2 ^ 32) ∧ setCur false (replyLine [0, 0, 64]) 5 64 = (-1, replyLine [0, 0, 64]) ∧
      (setStrc false (replyLine [0, 0, 64]) 5 64).2.calls ≠ [] :=
  ⟨by decide,
    (set_parameter_range_check false (replyLine [0, 0, 64]) 5 64 (by decide) (by decide)).2.2.2.2.2
      (by decide),
    (set_parameter_range_check false (replyLine [0, 0, 64]) 5 64 (by decide) (by decide)).1.2
      (by decide)⟩

/-- C7: for every id in [0,31] and every in-range value (`v` in [1,127] for
`setStrc`, `setSpd`, `setTmp`; `c` in [1,63] for `setCur`), the operation makes
exactly one call of `synchronize`, with the 3-byte request
`[0xC0+id, subcmd, value]`, subcmd 1, 2, 3 and 4 respectively, expecting a
3-byte response, and on a successful exchange returns response byte 2
unchanged. -/
theorem set_parameter_request_and_result (sc : Bool) (l : Line) (id v c : Nat) (hid : id ≤ 31)
    (hv : 1 ≤ v ∧ v ≤ 127) (hc : 1 ≤ c ∧ c ≤ 63) :
    IsExchange l (setStrc sc l id v) ⟨[0xC0 + id, 1, v], 3, 3⟩ (fun resp => resp.getD 2 0) ∧
    IsExchange l (setSpd sc l id v) ⟨[0xC0 + id, 2, v], 3, 3⟩ (fun resp => resp.getD 2 0) ∧
    IsExchange l (setCur sc l id c) ⟨[0xC0 + id, 3, c], 3, 3⟩ (fun resp => resp.getD 2 0) ∧
    IsExchange l (setTmp sc l id v) ⟨[0xC0 + id, 4, v], 3, 3⟩ (fun resp => resp.getD 2 0) :=
  ⟨setParam_exchange 127 1 sc l id v hid (by omega) hv.1 hv.2,
    setParam_exchange 127 2 sc l id v hid (by omega) hv.1 hv.2,
    setParam_exchange 63 3 sc l id c hid (by omega) hc.1 hc.2,
    setParam_exchange 127 4 sc l id v hid (by omega) hv.1 hv.2⟩

theorem set_parameter_request_and_result_witness :
    (5 ≤ 31 ∧ (1 ≤ 100 ∧ 100 ≤ 127) ∧ (1 ≤ 40 ∧ 40 ≤ 63)) ∧
      (setCur false (replyLine [0x45, 3, 40]) 5 40).2.calls = [⟨[0xC5, 3, 40], 3, 3⟩] ∧
      (setCur false (replyLine [0x45, 3, 40]) 5 40).1 = 40 :=
  ⟨by decide,
    (set_parameter_request_and_result false (replyLine [0x45, 3, 40]) 5 100 40
      (by decide) (by decide) (by decide)).2.2.1.1,
    (set_parameter_request_and_result false (replyLine [0x45, 3, 40]) 5 100 40
      (by decide) (by decide) (by decide)).2.2.1.2 [0x45, 3, 40] (by decide) rfl⟩

/-- C8: for every id in [0,31], `getStrc`, `getSpd`, `getCur` and `getTmp` make
exactly one call of `synchronize`, with the 2-byte request `[0xA0+id, subcmd]`,
subcmd 1, 2, 3 and 4 respectively, expecting a 3-byte response, and on a
successful exchange return response byte 2 unchanged. -/
theorem get_parameter_request_and_result (sc : Bool) (l : Line) (id : Nat) (hid : id ≤ 31) :
    IsExchange l (getStrc sc l id) ⟨[0xA0 + id, 1], 2, 3⟩ (fun resp => resp.getD 2 0) ∧
    IsExchange l (getSpd sc l id) ⟨[0xA0 + id, 2], 2, 3⟩ (fun resp => resp.getD 2 0) ∧
    IsExchange l (getCur sc l id) ⟨[0xA0 + id, 3], 2, 3⟩ (fun resp => resp.getD 2 0) ∧
    IsExchange l (getTmp sc l id) ⟨[0xA0 + id, 4], 2, 3⟩ (fun resp => resp.getD 2 0) :=
  ⟨getParam_exchange 1 sc l id hid, getParam_exchange 2 sc l id hid,
    getParam_exchange 3 sc l id hid, getParam_exchange 4 sc l id hid⟩

theorem get_parameter_request_and_result_witness :
    5 ≤ 31 ∧ (getTmp false (replyLine [0x25, 4, 200]) 5).2.calls = [⟨[0xA5, 4], 2, 3⟩] ∧
      (getTmp false (replyLine [0x25, 4, 200]) 5).1 = 200 :=
  ⟨by decide,
    (get_parameter_request_and_result false (replyLine [0x25, 4, 200]) 5 (by decide)).2.2.2.1,
    (get_parameter_request_and_result false (replyLine [0x25, 4, 200]) 5 (by decide)).2.2.2.2
      [0x25, 4, 200] (by decide) rfl⟩

/-- C9: for every id in [0,31], `setFree(id)` sends the 3-byte request
`[0x80+id, 0, 0]` expecting a 3-byte response, and for every response of a
successful exchange it returns `((resp[1]<<7)&0x3F80) + (resp[2]&0x7F)`, which
is exactly the value any accepted `setPos` call returns when its exchange
succeeds with that same response. -/
theorem setFree_request_and_decode (sc : Bool) (l : Line) (id : Nat) (hid : id ≤ 31) :
    (setFree sc l id).2.calls = l.calls ++ [⟨[0x80 + id, 0, 0], 3, 3⟩] ∧
    ∀ resp : List Nat, IsFrame 3 resp → Answers l ⟨[0x80 + id, 0, 0], 3, 3⟩ resp →
      (setFree sc l id).1
        = ((((resp.getD 1 0 <<< 7) &&& 0x3F80) + (resp.getD 2 0 &&& 0x7F) : Nat) : Int) ∧
      ∀ (sc2 : Bool) (l2 : Line) (id2 pos : Nat), id2 ≤ 31 → 3500 ≤ pos → pos ≤ 11500 →
        Answers l2 ⟨[0x80 + id2, (pos >>> 7) &&& 0x7F, pos &&& 0x7F], 3, 3⟩ resp →
        (setPos sc2 l2 id2 pos).1 = (setFree sc l id).1 := by
  have hF := setFree_exchange sc l id hid
  refine ⟨hF.1, ?_⟩
  intro resp hf ha
  have e1 := hF.2 resp hf ha
  refine ⟨e1, ?_⟩
  intro sc2 l2 id2 pos hid2 hlo hhi ha2
  rw [e1]
  exact (setPos_exchange sc2 l2 id2 pos hid2 hlo hhi).2 resp hf ha2

theorem setFree_request_and_decode_witness :
    5 ≤ 31 ∧ (setFree false (replyLine [0x05, 0x3A, 0x4C]) 5).2.calls = [⟨[0x85, 0, 0], 3, 3⟩] ∧
      (setFree false (replyLine [0x05, 0x3A, 0x4C]) 5).1 = 7500 ∧
      (setPos true (replyLine [0x05, 0x3A, 0x4C]) 7 4000).1
        = (setFree false (replyLine [0x05, 0x3A, 0x4C]) 5).1 :=
  ⟨by decide,
    (setFree_request_and_decode false (replyLine [0x05, 0x3A, 0x4C]) 5 (by decide)).1,
    ((setFree_request_and_decode false (replyLine [0x05, 0x3A, 0x4C]) 5 (by decide)).2
      [0x05, 0x3A, 0x4C] (by decide) rfl).1,
    ((setFree_request_and_decode false (replyLine [0x05, 0x3A, 0x4C]) 5 (by decide)).2
      [0x05, 0x3A, 0x4C] (by decide) rfl).2 true (replyLine [0x05, 0x3A, 0x4C]) 7 4000
      (by decide) (by decide) (by decide) rfl⟩

/-- C10: `getID()` sends the 4-byte request `[0xFF, 0, 0, 0]` expecting a
1-byte response (exactly one call of `synchronize`), and for every response
byte `b` of a successful exchange it returns `b & 0x1F`, a value in [0,31]. -/
theorem getID_request_and_decode (l : Line) :
    (getID l).2.calls = l.calls ++ [⟨[0xFF, 0, 0, 0], 4, 1⟩] ∧
    ∀ b : Nat, b < 256 → Answers l ⟨[0xFF, 0, 0, 0], 4, 1⟩ [b] →
      (getID l).1 = ((b &&& 0x1F : Nat) : Int) ∧ 0 ≤ (getID l).1 ∧ (getID l).1 ≤ 31 := by
  have hE : IsExchange l (getID l) ⟨[0xFF, 0, 0, 0], 4, 1⟩ (fun resp => resp.getD 0 0 &&& 0x1F) := by
    apply isExchange_of_eq l _ _ (fun rx => 0x1F &&& rxAt rx 0)
    · exact getID_accept l
    · intro resp hf
      show 0x1F &&& rxAt resp 0 = resp.getD 0 0 &&& 0x1F
      rw [rxAt_of_frame 1 resp hf, Nat.and_comm]
    · intro resp _
      have := @Nat.and_le_right (resp.getD 0 0) 0x1F
      show resp.getD 0 0 &&& 0x1F < 2 ^ 31
      omega
  refine ⟨hE.1, ?_⟩
  intro b hb ha
  have hf : IsFrame 1 [b] := ⟨rfl, by intro x hx; simp at hx; omega⟩
  have e := hE.2 [b] hf ha
  have e2 : (getID l).1 = ((b &&& 0x1F : Nat) : Int) := e
  have hle := @Nat.and_le_right b 0x1F
  refine ⟨e2, ?_, ?_⟩ <;> rw [e2] <;> omega

theorem getID_request_and_decode_witness :
    (getID (replyLine [0xE5])).2.calls = [⟨[0xFF, 0, 0, 0], 4, 1⟩] ∧ (getID (replyLine [0xE5])).1 = 5 :=
  ⟨(getID_request_and_decode (replyLine [0xE5])).1,
    ((getID_request_and_decode (replyLine [0xE5])).2 0xE5 (by decide) rfl).1⟩


/-! ## `setID` and the fixed-point angle conversions: lemmas -/

theorem setID_eq (l : Line) (id : Nat) :
    setID l id =
      (if (l.device l.calls ⟨[(0xE0 + id) % 256, 1, 1, 1], 4, 1⟩).1 = false then ICS_FALSE else (id : Int),
        logged l ⟨[(0xE0 + id) % 256, 1, 1, 1], 4, 1⟩) := by
  unfold setID
  simp only [synchronize, logged]
  split_ifs <;> rfl

theorem wrap32_of_bounds (z : Int) (h1 : -2 ^ 31 ≤ z) (h2 : z < 2 ^ 31) : wrap32 z = z := by
  unfold wrap32
  omega

theorem tdiv_of_nonneg (a b : Int) (ha : 0 ≤ a) (hb : 0 ≤ b) : a.tdiv b = a / b :=
  Int.tdiv_eq_ediv ha hb

theorem tdiv_of_nonpos (a b : Int) (ha : a ≤ 0) (hb : 0 ≤ b) : a.tdiv b = -((-a) / b) := by
  have h := Int.neg_tdiv (-a) b
  rw [Int.neg_neg] at h
  rw [h, Int.tdiv_eq_ediv (by omega) hb]

/-- On the positions whose quotient fits an `int`, neither the subtraction nor
the store into `deg` wraps. -/
theorem posDeg100_quot (pos : Int) (h1 : -635647660 ≤ pos) (h2 : pos ≤ 635662659) :
    wrap32 (Int.tdiv (wrap32 (pos - 7500) * 1000) 296) = Int.tdiv ((pos - 7500) * 1000) 296 := by
  rw [wrap32_of_bounds (pos - 7500) (by omega) (by omega)]
  apply wrap32_of_bounds
  · rcases le_total 0 (pos - 7500) with h | h
    · rw [tdiv_of_nonneg _ _ (by omega) (by norm_num)]; omega
    · rw [tdiv_of_nonpos _ _ (by omega) (by norm_num)]; omega
  · rcases le_total 0 (pos - 7500) with h | h
    · rw [tdiv_of_nonneg _ _ (by omega) (by norm_num)]; omega
    · rw [tdiv_of_nonpos _ _ (by omega) (by norm_num)]; omega

theorem posDeg100_in_range (pos : Int) (h1 : 3500 ≤ pos) (h2 : pos ≤ 11500) :
    posDeg100 pos = Int.tdiv ((pos - 7500) * 1000) 296 ∧
      -13513 ≤ posDeg100 pos ∧ posDeg100 pos ≤ 13513 := by
  have hq := posDeg100_quot pos (by omega) (by omega)
  have hb : -13513 ≤ Int.tdiv ((pos - 7500) * 1000) 296 ∧
      Int.tdiv ((pos - 7500) * 1000) 296 ≤ 13513 := by
    rcases le_total 0 (pos - 7500) with h | h
    · rw [tdiv_of_nonneg _ _ (by omega) (by norm_num)]; omega
    · rw [tdiv_of_nonpos _ _ (by omega) (by norm_num)]; omega
  have e : posDeg100 pos = Int.tdiv ((pos - 7500) * 1000) 296 := by
    unfold posDeg100
    simp only [hq, MAX_100DEG, MIN_100DEG]
    rw [if_neg (by omega), if_neg (by omega)]
  rw [e]
  exact ⟨rfl, hb⟩

theorem degPos100_in_range (deg : Int) (h1 : -18000 ≤ deg) (h2 : deg ≤ 18000) :
    degPos100 deg = Int.tdiv (deg * 2963) 10000 + 7500 ∧
      2167 ≤ degPos100 deg ∧ degPos100 deg ≤ 12833 := by
  have hb : -5333 ≤ Int.tdiv (deg * 2963) 10000 ∧ Int.tdiv (deg * 2963) 10000 ≤ 5333 := by
    rcases le_total 0 deg with h | h
    · rw [tdiv_of_nonneg _ _ (by omega) (by norm_num)]; omega
    · rw [tdiv_of_nonpos _ _ (by omega) (by norm_num)]; omega
  have e : degPos100 deg = Int.tdiv (deg * 2963) 10000 + 7500 := by
    unfold degPos100
    simp only [MAX_100DEG, MIN_100DEG]
    rw [if_neg (by omega), if_neg (by omega)]
    exact wrap32_of_bounds _ (by omega) (by omega)
  rw [e]
  exact ⟨rfl, by omega, by omega⟩

theorem degPos100_out_of_range (deg : Int) (h : deg < -18000 ∨ 18000 < deg) : degPos100 deg = -1 := by
  unfold degPos100
  simp only [MAX_100DEG, MIN_100DEG]
  split_ifs <;> first | rfl | omega

theorem posDeg100_lt (p q : Int) (hp : 3500 ≤ p) (hpq : p < q) (hq : q ≤ 11500) :
    posDeg100 p < posDeg100 q := by
  rw [(posDeg100_in_range p hp (by omega)).1, (posDeg100_in_range q (by omega) hq).1]
  rcases le_total 0 (p - 7500) with h | h
  · rw [tdiv_of_nonneg _ _ (by omega) (by norm_num), tdiv_of_nonneg _ _ (by omega) (by norm_num)]
    omega
  · rcases le_total 0 (q - 7500) with h2 | h2
    · rw [tdiv_of_nonpos _ _ (by omega) (by norm_num), tdiv_of_nonneg _ _ (by omega) (by norm_num)]
      omega
    · rw [tdiv_of_nonpos _ _ (by omega) (by norm_num), tdiv_of_nonpos _ _ (by omega) (by norm_num)]
      omega

theorem roundtrip_bound (p : Int) (h1 : 3500 ≤ p) (h2 : p ≤ 11500) :
    -4 ≤ degPos100 (posDeg100 p) - p ∧ degPos100 (posDeg100 p) - p ≤ 4 := by
  obtain ⟨e, lo, hi⟩ := posDeg100_in_range p h1 h2
  rw [(degPos100_in_range (posDeg100 p) (by omega) (by omega)).1]
  rw [e] at lo hi ⊢
  rcases le_total 0 (p - 7500) with h | h
  · rw [tdiv_of_nonneg ((p - 7500) * 1000) 296 (by omega) (by norm_num)] at lo hi ⊢
    rw [tdiv_of_nonneg _ 10000 (by omega) (by norm_num)]
    omega
  · rw [tdiv_of_nonpos ((p - 7500) * 1000) 296 (by omega) (by norm_num)] at lo hi ⊢
    rw [tdiv_of_nonpos _ 10000 (by omega) (by norm_num)]
    omega

/-! ## The claims on `setID` and on the angle conversions -/

/-- C11 (the code at the failing input): `setID(id)` makes one call of
`synchronize` with the request `[(0xE0+id) mod 256, 1, 1, 1]` expecting one
byte, and on every successful exchange it returns its own argument `id`,
whatever the device reports: with the reply `0xE3` (reported id 3) `setID(5)`
returns 5. -/
theorem setID_returns_its_argument (l : Line) (id : Nat) :
    (setID l id).2.calls = l.calls ++ [⟨[(0xE0 + id) % 256, 1, 1, 1], 4, 1⟩] ∧
    (∀ resp : List Nat, Answers l ⟨[(0xE0 + id) % 256, 1, 1, 1], 4, 1⟩ resp →
      (setID l id).1 = (id : Int)) ∧
    (setID (replyLine [0xE3]) 5).1 = 5 ∧ (0xE3 &&& 0x1F : Nat) = 3 := by
  refine ⟨?_, ?_, by decide, by decide⟩
  · rw [setID_eq]; rfl
  · intro resp ha
    have ha2 : l.device l.calls ⟨[(0xE0 + id) % 256, 1, 1, 1], 4, 1⟩ = (true, resp) := ha
    rw [setID_eq]
    simp [ha2]

/-- C12 (the code at the failing input): `setID` has no check of its id; for
every id, in [0,31] or not, it invokes `synchronize`, and `setID(32)` sends
`[0x00, 1, 1, 1]` and returns 32 when the exchange succeeds. -/
theorem setID_has_no_id_check (l : Line) (id : Nat) :
    (setID l id).2.calls ≠ l.calls ∧
    (setID (replyLine [0x00]) 32).2.calls = [⟨[0x00, 1, 1, 1], 4, 1⟩] ∧
    (setID (replyLine [0x00]) 32).1 = 32 ∧
    (setID (replyLine [0x1F]) 255).2.calls = [⟨[0xDF, 1, 1, 1], 4, 1⟩] ∧
    (setID (replyLine [0x1F]) 255).1 = 255 := by
  refine ⟨?_, by decide, by decide, by decide, by decide⟩
  rw [setID_eq]
  exact logged_calls_ne l _

/-- C13 (as stated, refuted): the request `setPos(5, 7500)` hands to
`synchronize` is not `[0x85, 0x3A, 0x8C]`. -/
theorem setPos_5_7500_not_8C :
    ¬ ∀ (sc : Bool) (l : Line),
      (setPos sc l 5 7500).2.calls = l.calls ++ [⟨[0x85, 0x3A, 0x8C], 3, 3⟩] := by
  intro h
  have h1 := h false deadLine
  revert h1
  decide

/-- C13 (amended): `setPos(id=5, pos=7500)` hands `synchronize` exactly the
request bytes `[0x85, 0x3A, 0x4C]`, with `txLen` 3 and `rxLen` 3. -/
theorem setPos_5_7500_request (sc : Bool) (l : Line) :
    (setPos sc l 5 7500).2.calls = l.calls ++ [⟨[0x85, 0x3A, 0x4C], 3, 3⟩] := by
  rw [setPos_accept sc l 5 7500 (by decide) (by decide) (by decide)]
  rfl

/-- C14 (as stated, refuted): the position 7501 is in [3500,11500] and the
round trip gives 7500. -/
theorem roundtrip_not_exact :
    (3500 : Int) ≤ 7501 ∧ (7501 : Int) ≤ 11500 ∧ degPos100 (posDeg100 7501) = 7500 ∧
      degPos100 (posDeg100 7501) ≠ 7501 := by
  decide

/-- C14 (amended): for every position p in [3500,11500], the fixed-point round
trip `degPos100(posDeg100(p))` differs from p by at most 4 units; the bound is
attained in both directions (at 11459 and at 3501), and the round trip is
exact at the neutral position 7500. -/
theorem roundtrip_within_four (p : Int) (h1 : 3500 ≤ p) (h2 : p ≤ 11500) :
    (-4 ≤ degPos100 (posDeg100 p) - p ∧ degPos100 (posDeg100 p) - p ≤ 4) ∧
    degPos100 (posDeg100 11459) - 11459 = 4 ∧ degPos100 (posDeg100 3501) - 3501 = -4 ∧
    degPos100 (posDeg100 7500) = 7500 :=
  ⟨roundtrip_bound p h1 h2, by decide, by decide, by decide⟩

theorem roundtrip_within_four_witness :
    ((3500 : Int) ≤ 11500 ∧ (11500 : Int) ≤ 11500) ∧
      (-4 ≤ degPos100 (posDeg100 11500) - 11500 ∧ degPos100 (posDeg100 11500) - 11500 ≤ 4) :=
  ⟨by decide, (roundtrip_within_four 11500 (by decide) (by decide)).1⟩

/-- C15: for every position pos in [3500,11500], `posDeg100(pos)` equals
`(pos-7500)*1000/296` with the quotient truncated toward zero, lies in
[-13513, 13513], and is neither of the out-of-range markers `0x7FFF`,
`-0x7FFF`. -/
theorem posDeg100_on_valid_positions (pos : Int) (h1 : 3500 ≤ pos) (h2 : pos ≤ 11500) :
    posDeg100 pos = Int.tdiv ((pos - 7500) * 1000) 296 ∧
    -13513 ≤ posDeg100 pos ∧ posDeg100 pos ≤ 13513 ∧
    posDeg100 pos ≠ 0x7FFF ∧ posDeg100 pos ≠ -0x7FFF := by
  obtain ⟨e, lo, hi⟩ := posDeg100_in_range pos h1 h2
  exact ⟨e, lo, hi, by omega, by omega⟩

theorem posDeg100_on_valid_positions_witness :
    ((3500 : Int) ≤ 11500 ∧ (11500 : Int) ≤ 11500) ∧
      posDeg100 11500 = Int.tdiv ((11500 - 7500) * 1000) 296 ∧ posDeg100 11500 ≤ 13513 :=
  ⟨by decide, (posDeg100_on_valid_positions 11500 (by decide) (by decide)).1,
    (posDeg100_on_valid_positions 11500 (by decide) (by decide)).2.2.1⟩

/-- C16: `posDeg100` is strictly increasing, hence injective, on the valid
position range: for all p < q in [3500,11500], `posDeg100(p) < posDeg100(q)`. -/
theorem posDeg100_strictly_increasing :
    (∀ p q : Int, 3500 ≤ p → p < q → q ≤ 11500 → posDeg100 p < posDeg100 q) ∧
    Set.InjOn posDeg100 (Set.Icc 3500 11500) := by
  refine ⟨posDeg100_lt, ?_⟩
  intro p hp q hq hpq
  rcases lt_trichotomy p q with h | h | h
  · exact absurd hpq (ne_of_lt (posDeg100_lt p q hp.1 h hq.2))
  · exact h
  · exact absurd hpq.symm (ne_of_lt (posDeg100_lt q p hq.1 h hp.2))

theorem posDeg100_strictly_increasing_witness : posDeg100 7500 < posDeg100 7501 :=
  posDeg100_strictly_increasing.1 7500 7501 (by decide) (by decide) (by decide)

/-- C17 (the code at the failing input): with the store of the quotient into
the `int` `deg` wrapping modulo 2^32, `posDeg100` reports the overshoot with
the marker of the matching sign exactly as long as the quotient fits an `int`
(positions from -635647660 to 635662659); beyond, the quotient wraps before it
is compared: 635662660 and 700000000 overshoot in the positive direction and
give `-0x7FFF`, 1271317819 gives the angle -3, and -635647661 overshoots in the
negative direction and gives `0x7FFF`. -/
theorem posDeg100_overshoot_markers :
    posDeg100 635662660 = -0x7FFF ∧ posDeg100 700000000 = -0x7FFF ∧
    posDeg100 1271317819 = -3 ∧ posDeg100 (-635647661) = 0x7FFF ∧
    (∀ pos : Int, 12829 ≤ pos → pos ≤ 635662659 → posDeg100 pos = 0x7FFF) ∧
    (∀ pos : Int, -635647660 ≤ pos → pos ≤ 2171 → posDeg100 pos = -0x7FFF) := by
  refine ⟨by decide, by decide, by decide, by decide, ?_, ?_⟩
  · intro pos h1 h2
    have hq := posDeg100_quot pos (by omega) h2
    have hb : 18000 < Int.tdiv ((pos - 7500) * 1000) 296 := by
      rw [tdiv_of_nonneg _ _ (by omega) (by norm_num)]; omega
    unfold posDeg100
    simp only [hq, MAX_100DEG, ANGLE_I_FALSE]
    rw [if_pos (by omega)]
  · intro pos h1 h2
    have hq := posDeg100_quot pos h1 (by omega)
    have hb : Int.tdiv ((pos - 7500) * 1000) 296 < -18000 := by
      rw [tdiv_of_nonpos _ _ (by omega) (by norm_num)]; omega
    unfold posDeg100
    simp only [hq, MAX_100DEG, MIN_100DEG, ANGLE_I_FALSE]
    rw [if_neg (by omega), if_pos (by omega)]

/-- C18: for every `deg`, `degPos100(deg)` returns -1 if and only if deg is
outside [-18000, 18000]; for every deg inside that range it returns
`deg*2963/10000 + 7500` with the quotient truncated toward zero. -/
theorem degPos100_rejects_exactly_out_of_range (deg : Int) :
    (degPos100 deg = -1 ↔ (deg < -18000 ∨ 18000 < deg)) ∧
    (-18000 ≤ deg → deg ≤ 18000 → degPos100 deg = Int.tdiv (deg * 2963) 10000 + 7500) := by
  constructor
  · constructor
    · intro h
      by_contra hin
      have := (degPos100_in_range deg (by omega) (by omega)).2.1
      omega
    · exact degPos100_out_of_range deg
  · intro h1 h2
    exact (degPos100_in_range deg h1 h2).1

theorem degPos100_rejects_exactly_out_of_range_witness :
    degPos100 18000 = Int.tdiv (18000 * 2963) 10000 + 7500 ∧ degPos100 18001 = -1 :=
  ⟨(degPos100_rejects_exactly_out_of_range 18000).2 (by decide) (by decide),
    (degPos100_rejects_exactly_out_of_range 18001).1.2 (Or.inr (by decide))⟩

end IcsBaseClass

namespace IcsHardSerialClass

/-! ## Lemmas on the primitives and the two loops -/

theorem reads_append (a b : List Effect) : reads (a ++ b) = reads a + reads b := by
  unfold reads
  exact List.count_append _ _ _

theorem fionread_trace (p : Port) : (fionread p).2.trace = p.trace ++ [Effect.fionread] := by
  unfold fionread
  split <;> rfl

theorem fionread_avail_le (p : Port) : (fionread p).2.avail.length ≤ p.avail.length := by
  unfold fionread
  split
  · simp
  · rename_i a rest h
    simp [h]

theorem fionread_fields (p : Port) :
    (fionread p).2.accept = p.accept ∧ (fionread p).2.timeout_default = p.timeout_default ∧
      (fionread p).2.clock = p.clock ∧ (fionread p).2.pin = p.pin := by
  unfold fionread
  split <;> exact ⟨rfl, rfl, rfl, rfl⟩

theorem read_trace (p : Port) (c : Option Nat) : (read p c).2.trace = p.trace ++ [Effect.read] := by
  unfold read
  split <;> rfl

theorem read_avail (p : Port) (c : Option Nat) : (read p c).2.avail = p.avail := by
  unfold read
  split <;> rfl

/-- The waiting loop reads no byte and uses up part of the script of polls. -/
theorem awaitLoop_spec (start : Nat) (fuel : Nat) :
    ∀ (p : Port) (fion : Int) (r : Port × Int), awaitLoop start fuel p fion = some r →
      ∃ ext, r.1.trace = p.trace ++ ext ∧ reads ext = 0 ∧ r.1.avail.length ≤ p.avail.length := by
  induction fuel with
  | zero =>
    intro p fion r h
    unfold awaitLoop at h
    split_ifs at h
    cases h
    exact ⟨[], by simp, rfl, le_refl _⟩
  | succ n ih =>
    intro p fion r h
    unfold awaitLoop at h
    by_cases h1 : fion < 1
    · rw [if_pos h1] at h
      dsimp only at h
      by_cases h2 : (fionread (delayMicroseconds p 50)).1 = 0
      · rw [if_neg (not_not.mpr h2)] at h
        by_cases h3 : ((micros (fionread (delayMicroseconds p 50)).2).1 + 2 ^ 32 - start) % 2 ^ 32
            > p.timeout_default
        · rw [if_pos h3] at h
          cases h
          refine ⟨[Effect.delayMicroseconds 50, Effect.fionread, Effect.micros], ?_, by decide, ?_⟩
          · simp [fionread_trace, delayMicroseconds, micros]
          · exact fionread_avail_le _
        · rw [if_neg h3] at h
          obtain ⟨ext, e1, e2, e3⟩ := ih _ _ r h
          refine ⟨[Effect.delayMicroseconds 50, Effect.fionread, Effect.micros] ++ ext, ?_, ?_, ?_⟩
          · rw [e1]; simp [fionread_trace, delayMicroseconds, micros]
          · rw [reads_append, e2]; decide
          · exact le_trans e3 (fionread_avail_le _)
      · rw [if_pos h2] at h
        cases h
        refine ⟨[Effect.delayMicroseconds 50, Effect.fionread], ?_, by decide, ?_⟩
        · simp [fionread_trace, delayMicroseconds]
        · exact fionread_avail_le _
    · rw [if_neg h1] at h
      cases h
      exact ⟨[], by simp, rfl, le_refl _⟩

/-- The draining loop counts in `bytesRead` the bytes it reads, and raises the
flag exactly when an iteration leaves `bytesRead` above `rxLen`. -/
theorem drainLoop_spec (rxLen : Nat) (fuel : Nat) :
    ∀ (s r : Drain), drainLoop rxLen fuel s = some r →
      ∃ ext, r.port.trace = s.port.trace ++ ext ∧ r.bytesRead = s.bytesRead + reads ext ∧
        (r.flag_incorrect_bytes_read = true ↔
          s.flag_incorrect_bytes_read = true ∨ (s.bytesRead < r.bytesRead ∧ rxLen < r.bytesRead)) := by
  induction fuel with
  | zero =>
    intro s r h
    unfold drainLoop at h
    split_ifs at h
    cases h
    exact ⟨[], by simp, by simp [reads], by simp⟩
  | succ n ih =>
    intro s r h
    unfold drainLoop at h
    by_cases h1 : s.fion > 0
    · rw [if_pos h1] at h
      dsimp only at h
      obtain ⟨ext, e1, e2, e3⟩ := ih _ r h
      dsimp only at e1 e2 e3
      refine ⟨[Effect.read, Effect.store s.bytesRead (read s.port s.reChar).1, Effect.fionread] ++ ext,
        ?_, ?_, ?_⟩
      · rw [e1]; simp [fionread_trace, store, read_trace]
      · rw [e2, reads_append]
        have : reads [Effect.read, Effect.store s.bytesRead (read s.port s.reChar).1,
            Effect.fionread] = 1 := by simp [reads]
        omega
      · rw [e3]
        by_cases h2 : s.bytesRead + 1 > rxLen
        · simp only [h2, if_true, true_or, true_iff]
          right; omega
        · simp only [h2, if_false]
          constructor
          · rintro (h3 | h3)
            · exact Or.inl h3
            · right; omega
          · rintro (h3 | h3)
            · exact Or.inl h3
            · right; omega
    · rw [if_neg h1] at h
      cases h
      exact ⟨[], by simp, by simp [reads], by simp⟩

/-- The draining loop ends as soon as the script of polls is used up. -/
theorem drainLoop_isSome (rxLen : Nat) (fuel : Nat) :
    ∀ s : Drain, (s.fion ≤ 0 ∨ s.port.avail.length < fuel) → (drainLoop rxLen fuel s).isSome := by
  induction fuel with
  | zero =>
    intro s h
    unfold drainLoop
    rcases h with h | h
    · rw [if_neg (by omega)]; rfl
    · exact absurd h (Nat.not_lt_zero _)
  | succ n ih =>
    intro s h
    unfold drainLoop
    by_cases h1 : s.fion > 0
    · rw [if_pos h1]
      dsimp only
      apply ih
      dsimp only
      have hlen : s.port.avail.length < n + 1 := by
        rcases h with h | h
        · omega
        · exact h
      have hav : (store (read s.port s.reChar).2 s.bytesRead (read s.port s.reChar).1).avail
          = s.port.avail := by
        simp [store, read_avail]
      unfold fionread
      rw [hav]
      cases hs : s.port.avail with
      | nil => left; simp
      | cons a rest =>
        right
        rw [hs] at hlen
        simp at hlen ⊢
        omega
    · rw [if_neg h1]; rfl

/-- The waiting loop ends by the timeout: `d` is the time waited so far. -/
theorem awaitLoop_isSome (c0 : Nat) (fuel : Nat) :
    ∀ (p : Port) (fion : Int) (d : Nat), p.clock = c0 + d → d ≤ p.timeout_default →
      p.timeout_default + 50 < 2 ^ 32 → p.timeout_default < fuel * 50 + d →
      (awaitLoop (c0 % 2 ^ 32) fuel p fion).isSome := by
  induction fuel with
  | zero =>
    intro p fion d _ h2 _ h4
    omega
  | succ n ih =>
    intro p fion d h1 h2 h3 h4
    unfold awaitLoop
    by_cases hf : fion < 1
    · rw [if_pos hf]
      dsimp only
      by_cases hz : (fionread (delayMicroseconds p 50)).1 = 0
      · rw [if_neg (not_not.mpr hz)]
        have hc : (fionread (delayMicroseconds p 50)).2.clock = c0 + (d + 50) := by
          rw [(fionread_fields _).2.2.1]; simp [delayMicroseconds, h1]; omega
        have ht : (fionread (delayMicroseconds p 50)).2.timeout_default = p.timeout_default := by
          rw [(fionread_fields _).2.1]; rfl
        have hm : ((micros (fionread (delayMicroseconds p 50)).2).1 + 2 ^ 32 - c0 % 2 ^ 32) % 2 ^ 32
            = d + 50 := by
          simp only [micros, hc]
          omega
        rw [hm]
        by_cases hgt : d + 50 > p.timeout_default
        · rw [if_pos hgt]; rfl
        · rw [if_neg hgt]
          apply ih _ _ (d + 50)
          · simp only [micros, hc]
          · simp only [micros, ht]; omega
          · simp only [micros, ht]; omega
          · simp only [micros, ht]; omega
      · rw [if_pos hz]; rfl
    · rw [if_neg hf]; rfl

/-- The trace of the port when the waiting loop is entered. -/
theorem entry_trace (p : Port) (txBuf : List Nat) (txLen d1 d2 : Nat) :
    (fionread (micros (delayMicroseconds (digitalWrite (delayMicroseconds
        (write (digitalWrite p true) txBuf txLen).2 d1) false) d2)).2).2.trace
      = p.trace ++ [Effect.digitalWrite true, Effect.write txBuf txLen, Effect.delayMicroseconds d1,
          Effect.digitalWrite false, Effect.delayMicroseconds d2, Effect.micros, Effect.fionread] := by
  rw [fionread_trace]
  simp [micros, delayMicroseconds, digitalWrite, write]

theorem synchronize_short_write (fuel : Nat) (p : Port) (txBuf : List Nat) (txLen rxLen : Nat)
    (h : p.accept txLen ≠ (txLen : Int)) :
    synchronize fuel p txBuf txLen rxLen = some (false, (write (digitalWrite p true) txBuf txLen).2) := by
  unfold synchronize
  dsimp only
  rw [if_pos (by simpa [write, digitalWrite] using h)]

theorem synchronize_flag (fuel : Nat) (p : Port) (txBuf : List Nat) (txLen rxLen : Nat)
    (r : Bool × Port) (h : synchronize fuel p txBuf txLen rxLen = some r) :
    (r.1 = true ↔ p.accept txLen = (txLen : Int) ∧ reads r.2.trace = reads p.trace + rxLen) := by
  by_cases hw : p.accept txLen = (txLen : Int)
  · unfold synchronize at h
    dsimp only at h
    rw [if_neg (by simpa [write, digitalWrite] using hw)] at h
    have key : ∀ d1 d2 : Nat,
        (match awaitLoop (micros (delayMicroseconds (digitalWrite (delayMicroseconds
              (write (digitalWrite p true) txBuf txLen).2 d1) false) d2)).1 fuel
            (fionread (micros (delayMicroseconds (digitalWrite (delayMicroseconds
              (write (digitalWrite p true) txBuf txLen).2 d1) false) d2)).2).2
            (fionread (micros (delayMicroseconds (digitalWrite (delayMicroseconds
              (write (digitalWrite p true) txBuf txLen).2 d1) false) d2)).2).1 with
          | none => none
          | some a =>
            match drainLoop rxLen fuel ⟨a.1, a.2, none, 0, false⟩ with
            | none => none
            | some s =>
              some (true && !(if s.bytesRead ≠ rxLen then true else s.flag_incorrect_bytes_read),
                flush s.port)) = some r →
        (r.1 = true ↔ reads r.2.trace = reads p.trace + rxLen) := by
      intro d1 d2 hm
      cases ha : awaitLoop (micros (delayMicroseconds (digitalWrite (delayMicroseconds
              (write (digitalWrite p true) txBuf txLen).2 d1) false) d2)).1 fuel
            (fionread (micros (delayMicroseconds (digitalWrite (delayMicroseconds
              (write (digitalWrite p true) txBuf txLen).2 d1) false) d2)).2).2
            (fionread (micros (delayMicroseconds (digitalWrite (delayMicroseconds
              (write (digitalWrite p true) txBuf txLen).2 d1) false) d2)).2).1 with
      | none => rw [ha] at hm; cases hm
      | some a =>
        rw [ha] at hm
        dsimp only at hm
        cases hd : drainLoop rxLen fuel ⟨a.1, a.2, none, 0, false⟩ with
        | none => rw [hd] at hm; cases hm
        | some s =>
          rw [hd] at hm
          dsimp only at hm
          obtain ⟨ext1, a1, a2, _⟩ := awaitLoop_spec _ _ _ _ _ ha
          obtain ⟨ext2, b1, b2, b3⟩ := drainLoop_spec _ _ _ _ hd
          dsimp only at b1 b2 b3
          rw [entry_trace] at a1
          have hr : reads (flush s.port).trace = reads p.trace + s.bytesRead := by
            simp only [flush, b1, a1, reads_append, a2, b2]
            simp [reads]
          cases hm
          dsimp only
          rw [hr]
          by_cases hne : s.bytesRead = rxLen
          · have hfl : s.flag_incorrect_bytes_read = false := by
              cases hf : s.flag_incorrect_bytes_read
              · rfl
              · have := b3.1 hf
                simp at this
                omega
            simp [hne, hfl]
          · simp [hne]
    have hiff : (r.1 = true ↔ reads r.2.trace = reads p.trace + rxLen) := by
      by_cases hb : p.baudrate_default = 115200
      · simp only [hb, if_true] at h
        exact key 180 100 h
      · simp only [hb, if_false] at h
        exact key 20 50 h
    rw [hiff]
    simp [hw]
  · rw [synchronize_short_write fuel p txBuf txLen rxLen hw] at h
    cases h
    simp [hw]

theorem synchronize_isSome (fuel : Nat) (p : Port) (txBuf : List Nat) (txLen rxLen : Nat)
    (ht : p.timeout_default + 50 < 2 ^ 32)
    (hf : p.timeout_default / 50 + p.avail.length + 2 ≤ fuel) :
    (synchronize fuel p txBuf txLen rxLen).isSome := by
  by_cases hw : p.accept txLen = (txLen : Int)
  · unfold synchronize
    dsimp only
    rw [if_neg (by simpa [write, digitalWrite] using hw)]
    have key : ∀ d1 d2 : Nat,
        (match awaitLoop (micros (delayMicroseconds (digitalWrite (delayMicroseconds
              (write (digitalWrite p true) txBuf txLen).2 d1) false) d2)).1 fuel
            (fionread (micros (delayMicroseconds (digitalWrite (delayMicroseconds
              (write (digitalWrite p true) txBuf txLen).2 d1) false) d2)).2).2
            (fionread (micros (delayMicroseconds (digitalWrite (delayMicroseconds
              (write (digitalWrite p true) txBuf txLen).2 d1) false) d2)).2).1 with
          | none => none
          | some a =>
            match drainLoop rxLen fuel ⟨a.1, a.2, none, 0, false⟩ with
            | none => none
            | some s =>
              some (true && !(if s.bytesRead ≠ rxLen then true else s.flag_incorrect_bytes_read),
                flush s.port)).isSome := by
      intro d1 d2
      have hfields := fionread_fields (micros (delayMicroseconds (digitalWrite (delayMicroseconds
              (write (digitalWrite p true) txBuf txLen).2 d1) false) d2)).2
      have hlen := fionread_avail_le (micros (delayMicroseconds (digitalWrite (delayMicroseconds
              (write (digitalWrite p true) txBuf txLen).2 d1) false) d2)).2
      have hsome := awaitLoop_isSome (p.clock + d1 + d2) fuel
        (fionread (micros (delayMicroseconds (digitalWrite (delayMicroseconds
              (write (digitalWrite p true) txBuf txLen).2 d1) false) d2)).2).2
        (fionread (micros (delayMicroseconds (digitalWrite (delayMicroseconds
              (write (digitalWrite p true) txBuf txLen).2 d1) false) d2)).2).1 0
        (by rw [hfields.2.2.1]; rfl)
        (by rw [hfields.2.1]; exact Nat.zero_le _)
        (by rw [hfields.2.1]; exact ht)
        (by
          rw [hfields.2.1]
          show p.timeout_default < fuel * 50 + 0
          have := Nat.div_add_mod p.timeout_default 50
          have := Nat.mod_lt p.timeout_default (by decide : 50 > 0)
          omega)
      have hstart : (micros (delayMicroseconds (digitalWrite (delayMicroseconds
              (write (digitalWrite p true) txBuf txLen).2 d1) false) d2)).1
          = (p.clock + d1 + d2) % 2 ^ 32 := rfl
      rw [hstart]
      cases ha : awaitLoop ((p.clock + d1 + d2) % 2 ^ 32) fuel
            (fionread (micros (delayMicroseconds (digitalWrite (delayMicroseconds
              (write (digitalWrite p true) txBuf txLen).2 d1) false) d2)).2).2
            (fionread (micros (delayMicroseconds (digitalWrite (delayMicroseconds
              (write (digitalWrite p true) txBuf txLen).2 d1) false) d2)).2).1 with
      | none => rw [ha] at hsome; cases hsome
      | some a =>
        dsimp only
        obtain ⟨_, _, _, a3⟩ := awaitLoop_spec _ _ _ _ _ ha
        have hav : a.1.avail.length < fuel := by
          have h0 : (micros (delayMicroseconds (digitalWrite (delayMicroseconds
              (write (digitalWrite p true) txBuf txLen).2 d1) false) d2)).2.avail.length
              = p.avail.length := rfl
          omega
        have hd := drainLoop_isSome rxLen fuel ⟨a.1, a.2, none, 0, false⟩ (Or.inr hav)
        cases hd2 : drainLoop rxLen fuel ⟨a.1, a.2, none, 0, false⟩ with
        | none => rw [hd2] at hd; cases hd
        | some s => rfl
    by_cases hb : p.baudrate_default = 115200
    · simp only [hb, if_true]
      exact key 180 100
    · simp only [hb, if_false]
      exact key 20 50
  · rw [synchronize_short_write fuel p txBuf txLen rxLen hw]
    rfl

/-! ## The claims on `synchronize` -/

/-- C19: over the port as explicit state, `synchronize(tx, txLen, rx, rxLen)`
returns (with enough fuel for the two loops, when the timeout does not reach
the end of the `unsigned int` range), and it returns true if and only if the
write accepted exactly `txLen` bytes and the number of bytes drained before
the available count reached zero equals `rxLen` exactly; so a call that drains
`rxLen` bytes succeeds and one that drains `rxLen+1` bytes fails, as on the
port where the three expected bytes arrive followed by one extra byte: the
first three bytes stored are the expected ones and the call returns false. -/
theorem synchronize_true_iff_exact_length (p : Port) (txBuf : List Nat) (txLen rxLen : Nat) :
    (p.timeout_default + 50 < 2 ^ 32 →
      ∀ fuel, p.timeout_default / 50 + p.avail.length + 2 ≤ fuel →
        (synchronize fuel p txBuf txLen rxLen).isSome) ∧
    (∀ fuel r, synchronize fuel p txBuf txLen rxLen = some r →
      (r.1 = true ↔ p.accept txLen = (txLen : Int) ∧ reads r.2.trace = reads p.trace + rxLen)) ∧
    (∀ fuel r, synchronize fuel p txBuf txLen rxLen = some r → p.accept txLen = (txLen : Int) →
      (reads r.2.trace = reads p.trace + rxLen → r.1 = true) ∧
      (reads r.2.trace = reads p.trace + (rxLen + 1) → r.1 = false)) ∧
    (synchronize 7 (portDelivering 100 0 [0x05, 0x3A, 0x4C]) [0x85, 0x3A, 0x4C] 3 3).map
        (fun r => (r.1, stores r.2.trace))
      = some (true, [(0, some 0x05), (1, some 0x3A), (2, some 0x4C)]) ∧
    (synchronize 8 (portDelivering 100 0 [0x05, 0x3A, 0x4C, 0x00]) [0x85, 0x3A, 0x4C] 3 3).map
        (fun r => (r.1, (stores r.2.trace).take 3))
      = some (false, [(0, some 0x05), (1, some 0x3A), (2, some 0x4C)]) := by
  refine ⟨?_, ?_, ?_, by decide, by decide⟩
  · intro ht fuel hf
    exact synchronize_isSome fuel p txBuf txLen rxLen ht hf
  · intro fuel r h
    exact synchronize_flag fuel p txBuf txLen rxLen r h
  · intro fuel r h hw
    have hiff := synchronize_flag fuel p txBuf txLen rxLen r h
    constructor
    · intro hr
      exact hiff.2 ⟨hw, hr⟩
    · intro hr
      cases hb : r.1
      · rfl
      · have := (hiff.1 hb).2
        omega

theorem synchronize_true_iff_exact_length_witness :
    ∃ r : Bool × Port,
      synchronize 7 (portDelivering 100 0 [0x05, 0x3A, 0x4C]) [0x85, 0x3A, 0x4C] 3 3 = some r ∧
      (r.1 = true ↔ (portDelivering 100 0 [0x05, 0x3A, 0x4C]).accept 3 = ((3 : Nat) : Int) ∧
        reads r.2.trace = reads (portDelivering 100 0 [0x05, 0x3A, 0x4C]).trace + 3) := by
  obtain ⟨r, hr⟩ := Option.isSome_iff_exists.1
    ((synchronize_true_iff_exact_length (portDelivering 100 0 [0x05, 0x3A, 0x4C])
      [0x85, 0x3A, 0x4C] 3 3).1 (by decide) 7 (by decide))
  exact ⟨r, hr, (synchronize_true_iff_exact_length (portDelivering 100 0 [0x05, 0x3A, 0x4C])
    [0x85, 0x3A, 0x4C] 3 3).2.1 7 r hr⟩

/-- C20: if the serial write accepts a byte count different from `txLen`,
`synchronize` returns false at once, whatever the fuel: after driving the pin
`HIGH` and the one `write`, it performs no availability poll, no read, no
store into the response buffer and no second write, and the script of the
port and the clock are as they were. -/
theorem synchronize_short_write_fails_at_once (fuel : Nat) (p : Port) (txBuf : List Nat)
    (txLen rxLen : Nat) (h : p.accept txLen ≠ (txLen : Int)) :
    ∃ q : Port, synchronize fuel p txBuf txLen rxLen = some (false, q) ∧
      q.trace = p.trace ++ [Effect.digitalWrite true, Effect.write txBuf txLen] ∧
      q.avail = p.avail ∧ q.incoming = p.incoming ∧ q.clock = p.clock :=
  ⟨(write (digitalWrite p true) txBuf txLen).2,
    synchronize_short_write fuel p txBuf txLen rxLen h, by simp [write, digitalWrite], rfl, rfl, rfl⟩

theorem synchronize_short_write_fails_at_once_witness :
    (2 : Int) ≠ ((3 : Nat) : Int) ∧
    ∃ q : Port,
      synchronize 0 { portDelivering 100 0 [] with accept := fun _ => 2 } [0x85, 0x3A, 0x4C] 3 3
        = some (false, q) ∧
      q.trace = [Effect.digitalWrite true, Effect.write [0x85, 0x3A, 0x4C] 3] ∧
      q.avail = [] ∧ q.incoming = [] ∧ q.clock = 0 :=
  ⟨by decide,
    synchronize_short_write_fails_at_once 0 { portDelivering 100 0 [] with accept := fun _ => 2 }
      [0x85, 0x3A, 0x4C] 3 3 (by decide)⟩

end IcsHardSerialClass

namespace IcsBaseClass

/-! ## The 7-bit split, the failure marker and the range of `degPos100`: lemmas -/

theorem shl7_mask (h : Nat) (hh : h < 128) : (h <<< 7) &&& 0x3F80 = h * 128 := by
  revert h
  decide

/-- The split of a 14-bit position into two 7-bit bytes and back. -/
theorem split_lossless (pos : Nat) (h : pos < 16384) :
    (pos >>> 7) &&& 0x7F < 0x80 ∧ pos &&& 0x7F < 0x80 ∧
      decodePos ((pos >>> 7) &&& 0x7F) (pos &&& 0x7F) = pos := by
  have e1 : pos &&& 0x7F = pos % 128 := Nat.and_pow_two_sub_one_eq_mod pos 7
  have e2 : (pos >>> 7) &&& 0x7F = (pos >>> 7) % 128 := Nat.and_pow_two_sub_one_eq_mod _ 7
  have e3 : pos >>> 7 = pos / 128 := Nat.shiftRight_eq_div_pow pos 7
  have hH : (pos >>> 7) &&& 0x7F = pos / 128 := by
    rw [e2, e3]; exact Nat.mod_eq_of_lt (by omega)
  have hL : (pos &&& 0x7F) &&& 0x7F = pos % 128 := by
    rw [e1]
    have := Nat.and_pow_two_sub_one_eq_mod (pos % 128) 7
    rw [this]
    exact Nat.mod_eq_of_lt (Nat.mod_lt _ (by decide))
  refine ⟨by rw [hH]; omega, by rw [e1]; omega, ?_⟩
  unfold decodePos
  rw [hL, hH, shl7_mask (pos / 128) (by omega)]
  omega

theorem tdiv_mono_2963 (d1 d2 : Int) (h1 : -18000 ≤ d1) (h : d1 ≤ d2) (h2 : d2 ≤ 18000) :
    Int.tdiv (d1 * 2963) 10000 ≤ Int.tdiv (d2 * 2963) 10000 := by
  rcases le_total 0 d1 with a | a
  · rw [tdiv_of_nonneg _ _ (by omega) (by norm_num), tdiv_of_nonneg _ _ (by omega) (by norm_num)]
    omega
  · rcases le_total 0 d2 with b | b
    · rw [tdiv_of_nonpos _ _ (by omega) (by norm_num), tdiv_of_nonneg _ _ (by omega) (by norm_num)]
      omega
    · rw [tdiv_of_nonpos _ _ (by omega) (by norm_num), tdiv_of_nonpos _ _ (by omega) (by norm_num)]
      omega

/-! ## The claims on the 7-bit split and on `degPos100` -/

/-- C25: the 7-bit split used by `setPos` is lossless on the valid range: for
every pos in [3500,11500], with `posH = (pos>>7)&0x7F` and `posL = pos&0x7F`,
both bytes are below `0x80` and `((posH<<7)&0x3F80) + (posL&0x7F) = pos`; so for
every id in [0,31], when the exchange succeeds with a 3-byte response whose
bytes 1 and 2 echo `posH` and `posL`, `setPos` returns exactly pos. -/
theorem setPos_split_lossless (pos : Nat) (hlo : 3500 ≤ pos) (hhi : pos ≤ 11500) :
    (pos >>> 7) &&& 0x7F < 0x80 ∧ pos &&& 0x7F < 0x80 ∧
    ((((pos >>> 7) &&& 0x7F) <<< 7) &&& 0x3F80) + ((pos &&& 0x7F) &&& 0x7F) = pos ∧
    ∀ (sc : Bool) (l : Line) (id b0 : Nat), id ≤ 31 → b0 < 256 →
      Answers l ⟨[0x80 + id, (pos >>> 7) &&& 0x7F, pos &&& 0x7F], 3, 3⟩
        [b0, (pos >>> 7) &&& 0x7F, pos &&& 0x7F] →
      (setPos sc l id pos).1 = (pos : Int) := by
  obtain ⟨h1, h2, h3⟩ := split_lossless pos (by omega)
  refine ⟨h1, h2, h3, ?_⟩
  intro sc l id b0 hid hb ha
  have hf : IsFrame 3 [b0, (pos >>> 7) &&& 0x7F, pos &&& 0x7F] := by
    refine ⟨rfl, ?_⟩
    intro b hbm
    simp only [List.mem_cons, List.mem_singleton, List.not_mem_nil, or_false] at hbm
    rcases hbm with rfl | rfl | rfl <;> omega
  have := (setPos_exchange sc l id pos hid hlo hhi).2 _ hf ha
  rw [this]
  show ((decodePos ((pos >>> 7) &&& 0x7F) (pos &&& 0x7F) : Nat) : Int) = (pos : Int)
  rw [h3]

theorem setPos_split_lossless_witness :
    (3500 ≤ 7500 ∧ 7500 ≤ 11500) ∧
      (setPos false (replyLine [0x05, 0x3A, 0x4C]) 5 7500).1 = 7500 :=
  ⟨by decide,
    (setPos_split_lossless 7500 (by decide) (by decide)).2.2.2 false (replyLine [0x05, 0x3A, 0x4C])
      5 0x05 (by decide) (by decide) rfl⟩

/-- C27: for every accepted angle deg in [-18000, 18000], `degPos100(deg)` lies
in [2167, 12833], and both bounds are attained, at -18000 and at 18000; so
there are accepted angles, such as 18000 and -18000, whose converted position
is outside [3500,11500], and `setPos` rejects it for every id: it returns -1
and leaves the line as it was. -/
theorem degPos100_range (deg : Int) (h1 : -18000 ≤ deg) (h2 : deg ≤ 18000) :
    (2167 ≤ degPos100 deg ∧ degPos100 deg ≤ 12833) ∧
    degPos100 (-18000) = 2167 ∧ degPos100 18000 = 12833 ∧
    ∀ (sc : Bool) (l : Line) (id : Nat),
      setPos sc l id (degPos100 18000).toNat = (-1, l) ∧
      setPos sc l id (degPos100 (-18000)).toNat = (-1, l) := by
  refine ⟨(degPos100_in_range deg h1 h2).2, by decide, by decide, ?_⟩
  intro sc l id
  have e1 : (degPos100 18000).toNat = 12833 := by decide
  have e2 : (degPos100 (-18000)).toNat = 2167 := by decide
  rw [e1, e2]
  exact ⟨setPos_reject_pos sc l id 12833 (by decide), setPos_reject_pos sc l id 2167 (by decide)⟩

theorem degPos100_range_witness :
    ((-18000 : Int) ≤ 0 ∧ (0 : Int) ≤ 18000) ∧ (2167 ≤ degPos100 0 ∧ degPos100 0 ≤ 12833) :=
  ⟨by decide, (degPos100_range 0 (by decide) (by decide)).1⟩

/-- C28: `degPos100` is monotone and odd-symmetric about the neutral position
7500 on its accepted range: for all d1 <= d2 in [-18000, 18000],
`degPos100(d1) <= degPos100(d2)`, and for every d in that range
`degPos100(-d) - 7500 = -(degPos100(d) - 7500)`. -/
theorem degPos100_monotone_and_odd :
    (∀ d1 d2 : Int, -18000 ≤ d1 → d1 ≤ d2 → d2 ≤ 18000 → degPos100 d1 ≤ degPos100 d2) ∧
    (∀ d : Int, -18000 ≤ d → d ≤ 18000 → degPos100 (-d) - 7500 = -(degPos100 d - 7500)) := by
  constructor
  · intro d1 d2 h1 h h2
    rw [(degPos100_in_range d1 h1 (by omega)).1, (degPos100_in_range d2 (by omega) h2).1]
    have := tdiv_mono_2963 d1 d2 h1 h h2
    omega
  · intro d h1 h2
    rw [(degPos100_in_range d h1 h2).1, (degPos100_in_range (-d) (by omega) (by omega)).1]
    have e : -d * 2963 = -(d * 2963) := by ring
    rw [e, Int.neg_tdiv]
    omega

theorem degPos100_monotone_and_odd_witness :
    degPos100 (-18000) ≤ degPos100 18000 ∧ degPos100 (-18000) - 7500 = -(degPos100 18000 - 7500) :=
  ⟨degPos100_monotone_and_odd.1 (-18000) 18000 (by decide) (by decide) (by decide),
    degPos100_monotone_and_odd.2 18000 (by decide) (by decide)⟩

/-! ## The failure marker -/

theorem rxAt_lt (rx : List Nat) (i : Nat) : rxAt rx i < 256 :=
  Nat.mod_lt _ (by decide)

theorem marker_of_shape (l : Line) (valid : Prop) [Decidable valid] (c : SyncCall)
    (decode : List Nat → Nat) (bound : Nat) (r : Int × Line)
    (hr : r = if valid then (outcome (l.device l.calls c) decode, logged l c) else (ICS_FALSE, l))
    (hb : ∀ rx, decode rx ≤ bound) (hbb : bound < 2 ^ 31) :
    MarkerUnambiguous l valid r bound := by
  refine ⟨c, ?_, ?_, ?_, ?_⟩
  · intro hv; rw [hr, if_neg hv]
  · intro hv; rw [hr, if_pos hv]; rfl
  · intro hv hf
    rw [hr, if_pos hv]
    show 0 ≤ outcome (l.device l.calls c) decode ∧ outcome (l.device l.calls c) decode ≤ bound
    unfold outcome
    rw [if_neg (by simp [hf]), toInt_of_lt _ (by have := hb (l.device l.calls c).2; omega)]
    have := hb (l.device l.calls c).2
    omega
  · by_cases hv : valid
    · rw [hr, if_pos hv]
      show outcome (l.device l.calls c) decode = -1 ↔ _
      unfold outcome
      by_cases hf : (l.device l.calls c).1 = false
      · rw [if_pos hf]; simp [hf, ICS_FALSE]
      · rw [if_neg hf, toInt_of_lt _ (by have := hb (l.device l.calls c).2; omega)]
        constructor
        · intro h; omega
        · rintro (h | h)
          · exact absurd hv h
          · exact absurd h hf
    · rw [hr, if_neg hv]
      simp [hv, ICS_FALSE]

theorem setPos_shape (sc : Bool) (l : Line) (id pos : Nat) :
    setPos sc l id pos =
      if id = idMax sc id ∧ maxMin MAX_POS MIN_POS (toInt pos) = true then
        (outcome (l.device l.calls
            ⟨[(0x80 + id) % 256, ((pos >>> 7) &&& 0x7F) % 256, (pos &&& 0x7F) % 256], 3, 3⟩)
          (fun rx => decodePos (rxAt rx 1) (rxAt rx 2)),
          logged l ⟨[(0x80 + id) % 256, ((pos >>> 7) &&& 0x7F) % 256, (pos &&& 0x7F) % 256], 3, 3⟩)
      else (ICS_FALSE, l) := by
  unfold setPos
  by_cases hv : id = idMax sc id ∧ maxMin MAX_POS MIN_POS (toInt pos) = true
  · rw [if_pos hv, if_neg (by
      rintro (h | h)
      · exact h hv.1
      · rw [hv.2] at h; exact absurd h (by decide))]
    simp only [synchronize, outcome, logged, decodePos]
    split_ifs <;> rfl
  · rw [if_neg hv, if_pos]
    by_cases h1 : id = idMax sc id
    · right
      cases hm : maxMin MAX_POS MIN_POS (toInt pos)
      · rfl
      · exact absurd ⟨h1, hm⟩ hv
    · left; exact h1

theorem setFree_shape (sc : Bool) (l : Line) (id : Nat) :
    setFree sc l id =
      if id = idMax sc id then
        (outcome (l.device l.calls ⟨[(0x80 + id) % 256, 0, 0], 3, 3⟩)
          (fun rx => decodePos (rxAt rx 1) (rxAt rx 2)),
          logged l ⟨[(0x80 + id) % 256, 0, 0], 3, 3⟩)
      else (ICS_FALSE, l) := by
  unfold setFree
  by_cases hv : id = idMax sc id
  · rw [if_pos hv, if_neg (not_not.mpr hv)]
    simp only [synchronize, outcome, logged, decodePos]
    split_ifs <;> rfl
  · rw [if_neg hv, if_pos hv]

theorem setParam_shape (maxVal : Int) (subcmd : Nat) (sc : Bool) (l : Line) (id v : Nat) :
    setParam maxVal subcmd sc l id v =
      if id = idMax sc id ∧ maxMin maxVal MIN_1 (toInt v) = true then
        (outcome (l.device l.calls ⟨[(0xC0 + id) % 256, subcmd, v % 256], 3, 3⟩)
          (fun rx => rxAt rx 2),
          logged l ⟨[(0xC0 + id) % 256, subcmd, v % 256], 3, 3⟩)
      else (ICS_FALSE, l) := by
  unfold setParam
  by_cases hv : id = idMax sc id ∧ maxMin maxVal MIN_1 (toInt v) = true
  · rw [if_pos hv, if_neg (by
      rintro (h | h)
      · exact h hv.1
      · rw [hv.2] at h; exact absurd h (by decide))]
    simp only [synchronize, outcome, logged]
    split_ifs <;> rfl
  · rw [if_neg hv, if_pos]
    by_cases h1 : id = idMax sc id
    · right
      cases hm : maxMin maxVal MIN_1 (toInt v)
      · rfl
      · exact absurd ⟨h1, hm⟩ hv
    · left; exact h1

theorem getParam_shape (subcmd : Nat) (sc : Bool) (l : Line) (id : Nat) :
    getParam subcmd sc l id =
      if id = idMax sc id then
        (outcome (l.device l.calls ⟨[(0xA0 + id) % 256, subcmd], 2, 3⟩) (fun rx => rxAt rx 2),
          logged l ⟨[(0xA0 + id) % 256, subcmd], 2, 3⟩)
      else (ICS_FALSE, l) := by
  unfold getParam
  by_cases hv : id = idMax sc id
  · rw [if_pos hv, if_neg (not_not.mpr hv)]
    simp only [synchronize, outcome, logged]
    split_ifs <;> rfl
  · rw [if_neg hv, if_pos hv]

theorem getPos_shape (sc : Bool) (l : Line) (id : Nat) :
    getPos sc l id =
      if id = idMax sc id then
        (outcome (l.device l.calls ⟨[(0xA0 + id) % 256, 5], 2, 4⟩)
          (fun rx => decodePos (rxAt rx 2) (rxAt rx 3)),
          logged l ⟨[(0xA0 + id) % 256, 5], 2, 4⟩)
      else (ICS_FALSE, l) := by
  unfold getPos
  by_cases hv : id = idMax sc id
  · rw [if_pos hv, if_neg (not_not.mpr hv)]
    simp only [synchronize, outcome, logged, decodePos]
    split_ifs <;> rfl
  · rw [if_neg hv, if_pos hv]

theorem setParam_marker (maxVal : Int) (subcmd : Nat) (sc : Bool) (l : Line) (id v : Nat) :
    MarkerUnambiguous l (id = idMax sc id ∧ maxMin maxVal MIN_1 (toInt v) = true)
      (setParam maxVal subcmd sc l id v) 255 :=
  marker_of_shape l _ _ (fun rx => rxAt rx 2) 255 _ (setParam_shape maxVal subcmd sc l id v)
    (fun rx => by have := rxAt_lt rx 2; show rxAt rx 2 ≤ 255; omega) (by norm_num)

theorem getParam_marker (subcmd : Nat) (sc : Bool) (l : Line) (id : Nat) :
    MarkerUnambiguous l (id = idMax sc id) (getParam subcmd sc l id) 255 :=
  marker_of_shape l _ _ (fun rx => rxAt rx 2) 255 _ (getParam_shape subcmd sc l id)
    (fun rx => by have := rxAt_lt rx 2; show rxAt rx 2 ≤ 255; omega) (by norm_num)

/-- C26: the failure marker is unambiguous.  For `setPos`, `setFree` and
`getPos` a successful exchange always yields a value in [0,16383], for the four
set-parameter and the four get-parameter operations a value in [0,255], and for
`getID` a value in [0,31]; each of these operations returns -1 if and only if
its input validation rejected the call (the id check `id = idMax(id)` and,
where there is one, the range check `maxMin`; `getID` has none) or
`synchronize` returned false. -/
theorem failure_marker_unambiguous (sc : Bool) (l : Line) (id v : Nat) :
    MarkerUnambiguous l (id = idMax sc id ∧ maxMin MAX_POS MIN_POS (toInt v) = true)
      (setPos sc l id v) 16383 ∧
    MarkerUnambiguous l (id = idMax sc id) (setFree sc l id) 16383 ∧
    MarkerUnambiguous l (id = idMax sc id) (getPos sc l id) 16383 ∧
    MarkerUnambiguous l (id = idMax sc id ∧ maxMin MAX_127 MIN_1 (toInt v) = true)
      (setStrc sc l id v) 255 ∧
    MarkerUnambiguous l (id = idMax sc id ∧ maxMin MAX_127 MIN_1 (toInt v) = true)
      (setSpd sc l id v) 255 ∧
    MarkerUnambiguous l (id = idMax sc id ∧ maxMin MAX_63 MIN_1 (toInt v) = true)
      (setCur sc l id v) 255 ∧
    MarkerUnambiguous l (id = idMax sc id ∧ maxMin MAX_127 MIN_1 (toInt v) = true)
      (setTmp sc l id v) 255 ∧
    MarkerUnambiguous l (id = idMax sc id) (getStrc sc l id) 255 ∧
    MarkerUnambiguous l (id = idMax sc id) (getSpd sc l id) 255 ∧
    MarkerUnambiguous l (id = idMax sc id) (getCur sc l id) 255 ∧
    MarkerUnambiguous l (id = idMax sc id) (getTmp sc l id) 255 ∧
    MarkerUnambiguous l True (getID l) 31 := by
  refine ⟨?_, ?_, ?_, setParam_marker _ _ sc l id v, setParam_marker _ _ sc l id v,
    setParam_marker _ _ sc l id v, setParam_marker _ _ sc l id v,
    getParam_marker _ sc l id, getParam_marker _ sc l id, getParam_marker _ sc l id,
    getParam_marker _ sc l id, ?_⟩
  · exact marker_of_shape l _ _ (fun rx => decodePos (rxAt rx 1) (rxAt rx 2)) 16383 _
      (setPos_shape sc l id v) (fun rx => decodePos_le _ _) (by norm_num)
  · exact marker_of_shape l _ _ (fun rx => decodePos (rxAt rx 1) (rxAt rx 2)) 16383 _
      (setFree_shape sc l id) (fun rx => decodePos_le _ _) (by norm_num)
  · exact marker_of_shape l _ _ (fun rx => decodePos (rxAt rx 2) (rxAt rx 3)) 16383 _
      (getPos_shape sc l id) (fun rx => decodePos_le _ _) (by norm_num)
  · exact marker_of_shape l True getIDCall (fun rx => 0x1F &&& rxAt rx 0) 31 _
      (by rw [if_pos trivial]; exact getID_accept l)
      (fun rx => Nat.and_le_left) (by norm_num)

theorem failure_marker_unambiguous_witness :
    ((setPos false (replyLine [0x05, 0x3A, 0x4C]) 5 7500).1 = -1 ↔
      ¬ (5 = idMax false 5 ∧ maxMin MAX_POS MIN_POS (toInt 7500) = true) ∨ true = false) ∧
    ((setPos false deadLine 5 7500).1 = -1 ↔
      ¬ (5 = idMax false 5 ∧ maxMin MAX_POS MIN_POS (toInt 7500) = true) ∨ false = false) := by
  obtain ⟨c1, _, _, _, h1⟩ :=
    (failure_marker_unambiguous false (replyLine [0x05, 0x3A, 0x4C]) 5 7500).1
  obtain ⟨c2, _, _, _, h2⟩ := (failure_marker_unambiguous false deadLine 5 7500).1
  exact ⟨h1, h2⟩

end IcsBaseClass

namespace IcsHardSerialClass

/-! ## The anatomy of the trace of one call -/

theorem stores_append (a b : List Effect) : stores (a ++ b) = stores a ++ stores b := by
  induction a with
  | nil => rfl
  | cons e t ih => cases e <;> simp [stores, ih]

theorem read_pin (p : Port) (c : Option Nat) : (read p c).2.pin = p.pin := by
  unfold read
  split <;> rfl

/-- The waiting loop only delays, polls and looks at the clock; it leaves the
pin as it is. -/
theorem awaitLoop_shape (start : Nat) (fuel : Nat) :
    ∀ (p : Port) (fion : Int) (r : Port × Int), awaitLoop start fuel p fion = some r →
      ∃ ext, r.1.trace = p.trace ++ ext ∧ r.1.pin = p.pin ∧
        ∀ e ∈ ext, e = Effect.delayMicroseconds 50 ∨ e = Effect.fionread ∨ e = Effect.micros := by
  induction fuel with
  | zero =>
    intro p fion r h
    unfold awaitLoop at h
    split_ifs at h
    cases h
    exact ⟨[], by simp, rfl, by simp⟩
  | succ n ih =>
    intro p fion r h
    unfold awaitLoop at h
    by_cases h1 : fion < 1
    · rw [if_pos h1] at h
      dsimp only at h
      by_cases h2 : (fionread (delayMicroseconds p 50)).1 = 0
      · rw [if_neg (not_not.mpr h2)] at h
        by_cases h3 : ((micros (fionread (delayMicroseconds p 50)).2).1 + 2 ^ 32 - start) % 2 ^ 32
            > p.timeout_default
        · rw [if_pos h3] at h
          cases h
          refine ⟨[Effect.delayMicroseconds 50, Effect.fionread, Effect.micros], ?_, ?_, ?_⟩
          · simp [fionread_trace, delayMicroseconds, micros]
          · simp [micros, (fionread_fields _).2.2.2, delayMicroseconds]
          · intro e he; simp at he; tauto
        · rw [if_neg h3] at h
          obtain ⟨ext, e1, e2, e3⟩ := ih _ _ r h
          refine ⟨[Effect.delayMicroseconds 50, Effect.fionread, Effect.micros] ++ ext, ?_, ?_, ?_⟩
          · rw [e1]; simp [fionread_trace, delayMicroseconds, micros]
          · rw [e2]; simp [micros, (fionread_fields _).2.2.2, delayMicroseconds]
          · intro e he
            rcases List.mem_append.1 he with h4 | h4
            · simp at h4; tauto
            · exact e3 e h4
      · rw [if_pos h2] at h
        cases h
        refine ⟨[Effect.delayMicroseconds 50, Effect.fionread], ?_, ?_, ?_⟩
        · simp [fionread_trace, delayMicroseconds]
        · simp [(fionread_fields _).2.2.2, delayMicroseconds]
        · intro e he; simp at he; tauto
    · rw [if_neg h1] at h
      cases h
      exact ⟨[], by simp, rfl, by simp⟩

/-- The draining loop only reads, stores and polls; it leaves the pin as it
is, and it stores the k-th byte it reads at the index k, whatever `rxLen`. -/
theorem drainLoop_shape (rxLen : Nat) (fuel : Nat) :
    ∀ (s r : Drain), drainLoop rxLen fuel s = some r →
      ∃ ext, r.port.trace = s.port.trace ++ ext ∧ r.port.pin = s.port.pin ∧
        (∀ e ∈ ext, e = Effect.read ∨ e = Effect.fionread ∨ ∃ i b, e = Effect.store i b) ∧
        (stores ext).map Prod.fst = List.range' s.bytesRead (reads ext) := by
  induction fuel with
  | zero =>
    intro s r h
    unfold drainLoop at h
    split_ifs at h
    cases h
    exact ⟨[], by simp, rfl, by simp, by simp [stores, reads]⟩
  | succ n ih =>
    intro s r h
    unfold drainLoop at h
    by_cases h1 : s.fion > 0
    · rw [if_pos h1] at h
      dsimp only at h
      obtain ⟨ext, e1, e2, e3, e4⟩ := ih _ r h
      dsimp only at e1 e2 e3 e4
      refine ⟨[Effect.read, Effect.store s.bytesRead (read s.port s.reChar).1, Effect.fionread] ++ ext,
        ?_, ?_, ?_, ?_⟩
      · rw [e1]; simp [fionread_trace, store, read_trace]
      · rw [e2, (fionread_fields _).2.2.2]; simp [store, read_pin]
      · intro e he
        rcases List.mem_append.1 he with h4 | h4
        · simp at h4
          rcases h4 with h4 | h4 | h4
          · exact Or.inl h4
          · exact Or.inr (Or.inr ⟨_, _, h4⟩)
          · exact Or.inr (Or.inl h4)
        · exact e3 e h4
      · rw [stores_append, reads_append, List.map_append, e4]
        have hr : reads [Effect.read, Effect.store s.bytesRead (read s.port s.reChar).1,
            Effect.fionread] = 1 := by simp [reads]
        rw [hr, Nat.add_comm 1 (reads ext), List.range'_succ]
        simp [stores]
    · rw [if_neg h1] at h
      cases h
      exact ⟨[], by simp, rfl, by simp, by simp [stores, reads]⟩

/-- A call whose write is accepted in full goes through both loops. -/
theorem synchronize_cases (fuel : Nat) (p : Port) (txBuf : List Nat) (txLen rxLen : Nat)
    (r : Bool × Port) (hw : p.accept txLen = (txLen : Int))
    (h : synchronize fuel p txBuf txLen rxLen = some r) :
    ∃ (d1 d2 : Nat) (a : Port × Int) (s : Drain),
      awaitLoop (micros (delayMicroseconds (digitalWrite (delayMicroseconds
            (write (digitalWrite p true) txBuf txLen).2 d1) false) d2)).1 fuel
          (fionread (micros (delayMicroseconds (digitalWrite (delayMicroseconds
            (write (digitalWrite p true) txBuf txLen).2 d1) false) d2)).2).2
          (fionread (micros (delayMicroseconds (digitalWrite (delayMicroseconds
            (write (digitalWrite p true) txBuf txLen).2 d1) false) d2)).2).1 = some a ∧
      drainLoop rxLen fuel ⟨a.1, a.2, none, 0, false⟩ = some s ∧
      r = (true && !(if s.bytesRead ≠ rxLen then true else s.flag_incorrect_bytes_read),
        flush s.port) := by
  unfold synchronize at h
  dsimp only at h
  rw [if_neg (by simpa [write, digitalWrite] using hw)] at h
  have key : ∀ d1 d2 : Nat,
      (match awaitLoop (micros (delayMicroseconds (digitalWrite (delayMicroseconds
            (write (digitalWrite p true) txBuf txLen).2 d1) false) d2)).1 fuel
          (fionread (micros (delayMicroseconds (digitalWrite (delayMicroseconds
            (write (digitalWrite p true) txBuf txLen).2 d1) false) d2)).2).2
          (fionread (micros (delayMicroseconds (digitalWrite (delayMicroseconds
            (write (digitalWrite p true) txBuf txLen).2 d1) false) d2)).2).1 with
        | none => none
        | some a =>
          match drainLoop rxLen fuel ⟨a.1, a.2, none, 0, false⟩ with
          | none => none
          | some s =>
            some (true && !(if s.bytesRead ≠ rxLen then true else s.flag_incorrect_bytes_read),
              flush s.port)) = some r →
      ∃ (a : Port × Int) (s : Drain),
        awaitLoop (micros (delayMicroseconds (digitalWrite (delayMicroseconds
              (write (digitalWrite p true) txBuf txLen).2 d1) false) d2)).1 fuel
            (fionread (micros (delayMicroseconds (digitalWrite (delayMicroseconds
              (write (digitalWrite p true) txBuf txLen).2 d1) false) d2)).2).2
            (fionread (micros (delayMicroseconds (digitalWrite (delayMicroseconds
              (write (digitalWrite p true) txBuf txLen).2 d1) false) d2)).2).1 = some a ∧
        drainLoop rxLen fuel ⟨a.1, a.2, none, 0, false⟩ = some s ∧
        r = (true && !(if s.bytesRead ≠ rxLen then true else s.flag_incorrect_bytes_read),
          flush s.port) := by
    intro d1 d2 hm
    cases ha : awaitLoop (micros (delayMicroseconds (digitalWrite (delayMicroseconds
            (write (digitalWrite p true) txBuf txLen).2 d1) false) d2)).1 fuel
          (fionread (micros (delayMicroseconds (digitalWrite (delayMicroseconds
            (write (digitalWrite p true) txBuf txLen).2 d1) false) d2)).2).2
          (fionread (micros (delayMicroseconds (digitalWrite (delayMicroseconds
            (write (digitalWrite p true) txBuf txLen).2 d1) false) d2)).2).1 with
    | none => rw [ha] at hm; cases hm
    | some a =>
      rw [ha] at hm
      dsimp only at hm
      cases hd : drainLoop rxLen fuel ⟨a.1, a.2, none, 0, false⟩ with
      | none => rw [hd] at hm; cases hm
      | some s =>
        rw [hd] at hm
        dsimp only at hm
        cases hm
        exact ⟨a, s, rfl, hd, rfl⟩
  by_cases hb : p.baudrate_default = 115200
  · simp only [hb, if_true] at h
    exact ⟨180, 100, key 180 100 h⟩
  · simp only [hb, if_false] at h
    exact ⟨20, 50, key 20 50 h⟩

/-- The trace of a call whose write is accepted in full: pin `HIGH`, the write,
the hold delay, pin `LOW`, the release delay, the clock, the first poll, the
waiting loop, the draining loop, the flush; the pin is `LOW` at the return. -/
theorem synchronize_anatomy (fuel : Nat) (p : Port) (txBuf : List Nat) (txLen rxLen : Nat)
    (r : Bool × Port) (hw : p.accept txLen = (txLen : Int))
    (h : synchronize fuel p txBuf txLen rxLen = some r) :
    ∃ (d1 d2 : Nat) (ext1 ext2 : List Effect),
      r.2.trace = p.trace ++ ([Effect.digitalWrite true, Effect.write txBuf txLen,
          Effect.delayMicroseconds d1, Effect.digitalWrite false, Effect.delayMicroseconds d2]
        ++ ([Effect.micros, Effect.fionread] ++ ext1 ++ ext2 ++ [Effect.flush])) ∧
      r.2.pin = false ∧
      (∀ e ∈ ext1, e = Effect.delayMicroseconds 50 ∨ e = Effect.fionread ∨ e = Effect.micros) ∧
      (∀ e ∈ ext2, e = Effect.read ∨ e = Effect.fionread ∨ ∃ i b, e = Effect.store i b) ∧
      (stores ext2).map Prod.fst = List.range (reads ext2) := by
  obtain ⟨d1, d2, a, s, ha, hd, hr⟩ := synchronize_cases fuel p txBuf txLen rxLen r hw h
  obtain ⟨ext1, a1, a2, a3⟩ := awaitLoop_shape _ _ _ _ _ ha
  obtain ⟨ext2, b1, b2, b3, b4⟩ := drainLoop_shape _ _ _ _ hd
  dsimp only at b1 b2 b4
  rw [entry_trace] at a1
  refine ⟨d1, d2, ext1, ext2, ?_, ?_, a3, b3, ?_⟩
  · rw [hr]
    simp only [flush, b1, a1]
    simp
  · rw [hr]
    show s.port.pin = false
    rw [b2, a2, (fionread_fields _).2.2.2]
    rfl
  · rw [b4, List.range_eq_range']

theorem fionread_nil (p : Port) (h : p.avail = []) :
    (fionread p).1 = 0 ∧ (fionread p).2.avail = [] := by
  unfold fionread
  rw [h]
  exact ⟨rfl, rfl⟩

/-- On a port on which no byte ever becomes available, the waiting loop gives
up at the first poll at which more than `timeout_default` microseconds have
passed: `d` is the time waited so far. -/
theorem awaitLoop_silent (c0 : Nat) (fuel : Nat) :
    ∀ (p : Port) (fion : Int) (d : Nat), p.avail = [] → fion < 1 → p.clock = c0 + d →
      d % 50 = 0 → d ≤ p.timeout_default → p.timeout_default + 50 < 2 ^ 32 →
      p.timeout_default < fuel * 50 + d →
      ∃ q : Port, awaitLoop (c0 % 2 ^ 32) fuel p fion = some (q, 0) ∧
        q.clock = c0 + 50 * (p.timeout_default / 50 + 1) := by
  induction fuel with
  | zero =>
    intro p fion d _ _ _ _ h2 _ h4
    omega
  | succ n ih =>
    intro p fion d hs hf h1 hd h2 h3 h4
    unfold awaitLoop
    rw [if_pos hf]
    dsimp only
    have hs1 : (delayMicroseconds p 50).avail = [] := hs
    obtain ⟨hz, hs2⟩ := fionread_nil (delayMicroseconds p 50) hs1
    rw [if_neg (not_not.mpr hz)]
    have hc : (fionread (delayMicroseconds p 50)).2.clock = c0 + (d + 50) := by
      rw [(fionread_fields _).2.2.1]; simp [delayMicroseconds, h1]; omega
    have ht : (fionread (delayMicroseconds p 50)).2.timeout_default = p.timeout_default := by
      rw [(fionread_fields _).2.1]; rfl
    have hm : ((micros (fionread (delayMicroseconds p 50)).2).1 + 2 ^ 32 - c0 % 2 ^ 32) % 2 ^ 32
        = d + 50 := by
      simp only [micros, hc]
      omega
    rw [hm]
    by_cases hgt : d + 50 > p.timeout_default
    · rw [if_pos hgt, hz]
      refine ⟨_, rfl, ?_⟩
      simp only [micros, hc]
      omega
    · rw [if_neg hgt]
      have := ih (micros (fionread (delayMicroseconds p 50)).2).2 (fionread (delayMicroseconds p 50)).1
        (d + 50) (by simp only [micros, hs2]) (by rw [hz]; decide) (by simp only [micros, hc])
        (by omega) (by simp only [micros, ht]; omega) (by simp only [micros, ht]; omega)
        (by simp only [micros, ht]; omega)
      simpa only [micros, ht] using this

theorem stores_nil_of (t : List Effect) (h : ∀ e ∈ t, ∀ i b, e ≠ Effect.store i b) :
    stores t = [] := by
  induction t with
  | nil => rfl
  | cons e t ih =>
    have ht := ih (fun x hx => h x (List.mem_cons_of_mem _ hx))
    have he := h e (List.mem_cons_self _ _)
    cases e <;> simp_all [stores]

theorem reads_zero_of (t : List Effect) (h : ∀ e ∈ t, e ≠ Effect.read) : reads t = 0 := by
  unfold reads
  exact List.count_eq_zero.2 (fun hm => h _ hm rfl)

/-- The stores and the reads of the whole trace of a call are those of its
draining loop. -/
theorem synchronize_stores (fuel : Nat) (p : Port) (txBuf : List Nat) (txLen rxLen : Nat)
    (r : Bool × Port) (hw : p.accept txLen = (txLen : Int))
    (h : synchronize fuel p txBuf txLen rxLen = some r) :
    ∃ ext, r.2.trace = p.trace ++ ext ∧ (stores ext).map Prod.fst = List.range (reads ext) := by
  obtain ⟨d1, d2, ext1, ext2, ht, _, h1, _, h3⟩ :=
    synchronize_anatomy fuel p txBuf txLen rxLen r hw h
  refine ⟨_, ht, ?_⟩
  have s1 : stores ext1 = [] :=
    stores_nil_of ext1 (fun e he i b hs => by rcases h1 e he with h | h | h <;> rw [h] at hs <;> cases hs)
  have r1 : reads ext1 = 0 :=
    reads_zero_of ext1 (fun e he hs => by rcases h1 e he with h | h | h <;> rw [h] at hs <;> cases hs)
  simp only [stores_append, reads_append, s1, r1]
  simpa [stores, reads] using h3

/-- Every poll and every read of a trace that starts with pin `HIGH`, the
write, a delay, pin `LOW`, a delay, and goes on without any change of the pin,
comes after the `LOW` event, with no change of the pin in between. -/
theorem low_before_polls (w : Effect) (d1 d2 : Nat) (rest a b : List Effect) (e : Effect)
    (hrest : ∀ x ∈ rest, ∀ lvl, x ≠ Effect.digitalWrite lvl)
    (hw : w ≠ Effect.fionread ∧ w ≠ Effect.read)
    (hsplit : [Effect.digitalWrite true, w, Effect.delayMicroseconds d1, Effect.digitalWrite false,
        Effect.delayMicroseconds d2] ++ rest = a ++ e :: b)
    (he : e = Effect.fionread ∨ e = Effect.read) :
    ∃ a2, a = [Effect.digitalWrite true, w, Effect.delayMicroseconds d1] ++
        Effect.digitalWrite false :: a2 ∧ ∀ x ∈ a2, ∀ lvl, x ≠ Effect.digitalWrite lvl := by
  rcases List.append_eq_append_iff.1 hsplit with ⟨c, hc1, hc2⟩ | ⟨c, hc1, hc2⟩
  · refine ⟨Effect.delayMicroseconds d2 :: c, by rw [hc1]; rfl, ?_⟩
    intro x hx lvl
    rcases List.mem_cons.1 hx with h | h
    · rw [h]; intro hh; cases hh
    · exact hrest x (by rw [hc2]; exact List.mem_append_left _ h) lvl
  · cases c with
    | nil =>
      refine ⟨[Effect.delayMicroseconds d2], by rw [List.append_nil] at hc1; rw [← hc1]; rfl, ?_⟩
      intro x hx lvl
      rw [List.mem_singleton.1 hx]; intro hh; cases hh
    | cons y c2 =>
      exfalso
      have hy : y = e := by
        have := congrArg List.head? hc2
        simpa using this.symm
      have hmem : e ∈ [Effect.digitalWrite true, w, Effect.delayMicroseconds d1,
          Effect.digitalWrite false, Effect.delayMicroseconds d2] := by
        rw [hc1, ← hy]; simp
      simp only [List.mem_cons, List.mem_singleton, List.not_mem_nil, or_false] at hmem
      rcases he with h | h <;> rw [h] at hmem <;>
        rcases hmem with h1 | h1 | h1 | h1 | h1 <;>
        first | exact absurd h1.symm hw.1 | exact absurd h1.symm hw.2 | cases h1

/-! ## The claims on the flush, the timeout, the receive buffer and the pin -/

/-- C22 (the code at the failing input): `timeout_default` holds the timeout T
in milliseconds, and the waiting loop compares it with a difference of
`micros()` readings.  On a port on which no byte ever becomes available, the
loop gives up at the first poll after more than T microseconds: when it
returns, the clock has advanced by `50 * (T/50 + 1)`, at most `T + 50`
microseconds, which for T >= 1 is less than `1000 * T`.  With T = 100 the wait
lasts 150 microseconds and the whole call 430, not 100000. -/
theorem await_gives_up_after_T_microseconds :
    (∀ (T c fuel : Nat) (p : Port), T + 50 < 2 ^ 32 → T / 50 + 1 ≤ fuel → p.avail = [] →
      p.clock = c → p.timeout_default = T →
      ∃ q : Port, awaitLoop (c % 2 ^ 32) fuel p 0 = some (q, 0) ∧
        q.clock = c + 50 * (T / 50 + 1) ∧ q.clock - c ≤ T + 50 ∧
        (1 ≤ T → q.clock - c < 1000 * T)) ∧
    (awaitLoop 0 3 (portDelivering 100 0 []) 0).map (fun a => (a.1.clock, a.2)) = some (150, 0) ∧
    (synchronize 3 (portDelivering 100 0 []) [0x85, 0x3A, 0x4C] 3 3).map
      (fun r => (r.1, r.2.clock)) = some (false, 430) := by
  refine ⟨?_, by decide, by decide⟩
  intro T c fuel p hT hf hs hc ht
  have hdm := Nat.div_add_mod T 50
  have hml := Nat.mod_lt T (by decide : 50 > 0)
  obtain ⟨q, h1, h2⟩ := awaitLoop_silent c fuel p 0 0 hs (by decide) (by omega) (by decide)
    (by omega) (by omega) (by omega)
  rw [ht] at h2
  refine ⟨q, h1, h2, ?_, ?_⟩
  · omega
  · intro h; omega

/-- C21 (the code at the failing input): a call whose write is accepted in
full returns after the flush, which is the last entry of its trace, and with
the pin `LOW`; a call whose write is not accepted in full returns at once with
the pin left `HIGH` and without any flush, so that on such a port the write of
the next call is issued with no flush since the previous write. -/
theorem flush_and_low_only_after_full_write :
    (∀ (fuel : Nat) (p : Port) (txBuf : List Nat) (txLen rxLen : Nat) (r : Bool × Port),
      p.accept txLen = (txLen : Int) → synchronize fuel p txBuf txLen rxLen = some r →
      r.2.pin = false ∧ ∃ t, r.2.trace = p.trace ++ (t ++ [Effect.flush])) ∧
    (∀ (fuel : Nat) (p : Port) (txBuf : List Nat) (txLen rxLen : Nat),
      p.accept txLen ≠ (txLen : Int) →
      ∃ q : Port, synchronize fuel p txBuf txLen rxLen = some (false, q) ∧ q.pin = true ∧
        q.trace = p.trace ++ [Effect.digitalWrite true, Effect.write txBuf txLen]) ∧
    ((synchronize 0 { portDelivering 100 0 [] with accept := fun _ => 0 } [0x85, 0x3A, 0x4C] 3 3).bind
        fun r1 => (synchronize 0 r1.2 [0xA5, 0x05] 2 4).map
          fun r2 => (r1.1, r1.2.pin, r2.1, r2.2.pin, r2.2.trace))
      = some (false, true, false, true,
          [Effect.digitalWrite true, Effect.write [0x85, 0x3A, 0x4C] 3,
            Effect.digitalWrite true, Effect.write [0xA5, 0x05] 2]) := by
  refine ⟨?_, ?_, by decide⟩
  · intro fuel p txBuf txLen rxLen r hw h
    obtain ⟨d1, d2, ext1, ext2, ht, hp, _⟩ := synchronize_anatomy fuel p txBuf txLen rxLen r hw h
    refine ⟨hp, [Effect.digitalWrite true, Effect.write txBuf txLen,
          Effect.delayMicroseconds d1, Effect.digitalWrite false, Effect.delayMicroseconds d2]
        ++ ([Effect.micros, Effect.fionread] ++ ext1 ++ ext2), ?_⟩
    rw [ht]
    simp
  · intro fuel p txBuf txLen rxLen hw
    exact ⟨_, synchronize_short_write fuel p txBuf txLen rxLen hw, rfl,
      by simp [write, digitalWrite]⟩

/-- C23 (the code at the failing input): `synchronize` stores every byte it
drains, the k-th at the index k, before it compares `bytesRead` with `rxLen`:
the indices stored are 0, 1, ..., up to the number of bytes drained, so a call
that drains more than `rxLen` bytes stores at the index `rxLen`.  With
`rxLen = 3` and four bytes delivered, the fourth is stored at `rxBuf[3]`. -/
theorem surplus_byte_is_stored_at_rxLen :
    (∀ (fuel : Nat) (p : Port) (txBuf : List Nat) (txLen rxLen : Nat) (r : Bool × Port),
      p.accept txLen = (txLen : Int) → synchronize fuel p txBuf txLen rxLen = some r →
      ∃ ext, r.2.trace = p.trace ++ ext ∧
        (stores ext).map Prod.fst = List.range (reads ext) ∧
        (rxLen < reads ext → rxLen ∈ (stores ext).map Prod.fst)) ∧
    (synchronize 8 (portDelivering 100 0 [0x05, 0x3A, 0x4C, 0x00]) [0x85, 0x3A, 0x4C] 3 3).map
        (fun r => (r.1, stores r.2.trace))
      = some (false, [(0, some 0x05), (1, some 0x3A), (2, some 0x4C), (3, some 0x00)]) := by
  refine ⟨?_, by decide⟩
  intro fuel p txBuf txLen rxLen r hw h
  obtain ⟨ext, h1, h2⟩ := synchronize_stores fuel p txBuf txLen rxLen r hw h
  refine ⟨ext, h1, h2, ?_⟩
  intro hlt
  rw [h2]
  exact List.mem_range.2 hlt

/-- C24 (the code at the failing input): in a call whose write is accepted in
full the pin is driven `HIGH` before the write and `LOW` after it, and every
poll and every read comes after that `LOW` event with no change of the pin in
between; in a call whose write is not accepted in full the pin is driven
`HIGH` before the write and is not driven `LOW` at all: the trace of the call
is the two entries pin `HIGH`, write. -/
theorem pin_low_only_after_full_write :
    (∀ (fuel : Nat) (p : Port) (txBuf : List Nat) (txLen rxLen : Nat) (r : Bool × Port),
      p.accept txLen = (txLen : Int) → synchronize fuel p txBuf txLen rxLen = some r →
      ∃ (d1 d2 : Nat) (rest : List Effect),
        r.2.trace = p.trace ++ ([Effect.digitalWrite true, Effect.write txBuf txLen,
          Effect.delayMicroseconds d1, Effect.digitalWrite false, Effect.delayMicroseconds d2]
          ++ rest) ∧
        (∀ x ∈ rest, ∀ lvl, x ≠ Effect.digitalWrite lvl) ∧
        ∀ (a b : List Effect) (e : Effect),
          [Effect.digitalWrite true, Effect.write txBuf txLen, Effect.delayMicroseconds d1,
            Effect.digitalWrite false, Effect.delayMicroseconds d2] ++ rest = a ++ e :: b →
          (e = Effect.fionread ∨ e = Effect.read) →
          ∃ a2, a = [Effect.digitalWrite true, Effect.write txBuf txLen,
              Effect.delayMicroseconds d1] ++ Effect.digitalWrite false :: a2 ∧
            ∀ x ∈ a2, ∀ lvl, x ≠ Effect.digitalWrite lvl) ∧
    (∀ (fuel : Nat) (p : Port) (txBuf : List Nat) (txLen rxLen : Nat),
      p.accept txLen ≠ (txLen : Int) →
      ∃ q : Port, synchronize fuel p txBuf txLen rxLen = some (false, q) ∧ q.pin = true ∧
        q.trace = p.trace ++ [Effect.digitalWrite true, Effect.write txBuf txLen]) ∧
    (synchronize 0 { portDelivering 100 0 [] with accept := fun _ => 2 } [0x85, 0x3A, 0x4C] 3 3).map
        (fun r => (r.1, r.2.pin, r.2.trace))
      = some (false, true, [Effect.digitalWrite true, Effect.write [0x85, 0x3A, 0x4C] 3]) := by
  refine ⟨?_, ?_, by decide⟩
  · intro fuel p txBuf txLen rxLen r hw h
    obtain ⟨d1, d2, ext1, ext2, ht, _, h1, h2, _⟩ :=
      synchronize_anatomy fuel p txBuf txLen rxLen r hw h
    have hrest : ∀ x ∈ [Effect.micros, Effect.fionread] ++ ext1 ++ ext2 ++ [Effect.flush],
        ∀ lvl, x ≠ Effect.digitalWrite lvl := by
      intro x hx lvl hh
      simp only [List.mem_append, List.mem_cons, List.mem_singleton, List.not_mem_nil,
        or_false] at hx
      rcases hx with ((hx | hx) | hx) | hx
      · rcases hx with hx | hx <;> rw [hx] at hh <;> cases hh
      · rcases h1 x hx with h | h | h <;> rw [h] at hh <;> cases hh
      · rcases h2 x hx with h | h | ⟨i, b, h⟩ <;> rw [h] at hh <;> cases hh
      · rw [hx] at hh; cases hh
    refine ⟨d1, d2, _, ht, hrest, ?_⟩
    intro a b e hsplit he
    exact low_before_polls _ d1 d2 _ a b e hrest
      ⟨(by intro hh; cases hh), (by intro hh; cases hh)⟩ hsplit he
  · intro fuel p txBuf txLen rxLen hw
    exact ⟨_, synchronize_short_write fuel p txBuf txLen rxLen hw, rfl,
      by simp [write, digitalWrite]⟩

end IcsHardSerialClass
